import Mathlib

/-!
# Verification of the datagrid core against its specification

This development gives a shallow embedding, in Lean 4, of the algorithmic core
of the canvas data grid: the visible-range geometry (`utils/visibleRange.ts`),
the column-width distribution (`utils/mouse.ts`), the virtual data window
manager (`data/VirtualDataManager.ts`, `data/DataManager.ts`), and the
pointer-interaction controller (`hooks/useGridController.ts`).

JavaScript numbers are modelled as rationals (`ℚ`); values produced by
`Math.floor`/`Math.ceil`/`Math.round` are integers (`ℤ`).  Fallible lookups
are `Option`s.  Stateful classes become explicit state records with pure
transition functions.
-/

namespace DataGrid

/-- JS `Math.round`: round half away from ... in fact JS rounds half up
(`Math.round(x) = ⌊x + 0.5⌋` for all finite `x`). -/
def jround (q : ℚ) : ℤ := ⌊q + 1/2⌋

/-- JS `x || fallback` on numbers: `0` is falsy. -/
def jsOrQ (x fallback : ℚ) : ℚ := if x = 0 then fallback else x

/-- JS `x || ''` applied to a nullable string: `null` and `''` are falsy. -/
def jsOrStr (x : Option String) : String :=
  match x with
  | none => ""
  | some s => if s = "" then "" else s

/-! ## Shared geometry data model (`types.ts`) -/

/-- A canvas rectangle (`Rect`); only width/height are relevant here. -/
structure Rect where
  width : ℚ
  height : ℚ
  deriving DecidableEq, Repr

/-- Per-column pixel widths plus the fixed leading gutter (`ColumnWidths`). -/
structure ColumnWidths where
  gutter : ℚ
  columns : List ℚ
  total : ℚ
  deriving DecidableEq, Repr

/-- The half-open index window currently rendered (`VisibleRange`). -/
structure VisibleRange where
  startRow : ℤ
  endRow : ℤ
  startCol : ℤ
  endCol : ℤ
  deriving DecidableEq, Repr

/-- `constants.ts`: scrollbar thickness in pixels. -/
def SCROLLBAR_WIDTH : ℚ := 16

/-- `constants.ts`: fixed header strip height in pixels. -/
def HEADER_HEIGHT : ℚ := 36

/-! ## `utils/visibleRange.ts` — `calculateVisibleRange`

Both column loops of the source walk the column list accumulating an
x-cursor that starts at the gutter and test, at column `i`, whether the
accumulated trailing edge `gutter + w₀ + ⋯ + wᵢ` has reached a threshold
(`scrollLeft` for the start column, `scrollLeft + canvasWidth` for the end
column), returning the first such index.  `firstColEndAtLeast` is that
shared loop. -/

/-- First index `i` of `cols` with `acc + cols[0] + ⋯ + cols[i] ≥ θ`,
if any. -/
def firstColEndAtLeast (θ : ℚ) : ℚ → List ℚ → Option ℕ
  | _, [] => none
  | acc, w :: ws =>
    if θ ≤ acc + w then some 0
    else (firstColEndAtLeast θ (acc + w) ws).map (· + 1)

/-- Input record of `calculateVisibleRange`
(`VisibleRangeCalculationOptions`); `overscan` defaults to `0` at the
call sites modelled here an is kept explicit. -/
structure VisibleRangeOptions where
  scrollTop : ℚ
  scrollLeft : ℚ
  canvasRect : Rect
  columnWidths : ColumnWidths
  rowHeight : ℚ
  headerHeight : ℚ
  totalRows : ℤ
  totalColumns : ℤ
  overscan : ℤ
  deriving DecidableEq, Repr

/-- Rows, start: `Math.floor(scrollTop / rowHeight)` (line 37). -/
def visStartRow (o : VisibleRangeOptions) : ℤ := ⌊o.scrollTop / o.rowHeight⌋

/-- Rows, end:
`Math.min(totalRows, Math.ceil((scrollTop + height - headerHeight) / rowHeight) + 1)`
(lines 38–41). -/
def visEndRow (o : VisibleRangeOptions) : ℤ :=
  min o.totalRows
    (⌈(o.scrollTop + o.canvasRect.height - o.headerHeight) / o.rowHeight⌉ + 1)

/-- The columns both loops actually visit
(`col < totalColumns && col < columns.length`). -/
def effCols (o : VisibleRangeOptions) : List ℚ :=
  o.columnWidths.columns.take o.totalColumns.toNat

/-- Start column (lines 44–58): the first column whose trailing edge reaches
`scrollLeft`, defaulting to `0`. -/
def visStartCol (o : VisibleRangeOptions) : ℤ :=
  match firstColEndAtLeast o.scrollLeft o.columnWidths.gutter (effCols o) with
  | some s => (s : ℤ)
  | none => 0

/-- End column before the final clamp (lines 60–72): the first column whose
trailing edge reaches `scrollLeft + width` (then `min(totalColumns, col+1)`),
defaulting to `totalColumns`. -/
def visEndCol0 (o : VisibleRangeOptions) : ℤ :=
  match
    firstColEndAtLeast (o.scrollLeft + o.canvasRect.width) o.columnWidths.gutter
      (effCols o) with
  | some e => min o.totalColumns ((e : ℤ) + 1)
  | none => o.totalColumns

/-- End column (line 75):
`endCol = Math.min(totalColumns, Math.max(endCol, columns.length))`. -/
def visEndCol (o : VisibleRangeOptions) : ℤ :=
  min o.totalColumns (max (visEndCol0 o) (o.columnWidths.columns.length : ℤ))

/-- `calculateVisibleRange` (`utils/visibleRange.ts`, lines 15–94),
assembled from the component functions above, including the degenerate-canvas
guard (lines 30–32) and the symmetric horizontal overscan (lines 78–83). -/
def calculateVisibleRange (o : VisibleRangeOptions) : VisibleRange :=
  if o.canvasRect.width ≤ 0 ∨ o.canvasRect.height ≤ 0 then
    ⟨0, 0, 0, 0⟩
  else if 0 < o.overscan then
    ⟨visStartRow o, visEndRow o,
      visStartCol o - min o.overscan (visStartCol o),
      visEndCol o + min o.overscan (o.totalColumns - visEndCol o)⟩
  else
    ⟨visStartRow o, visEndRow o, visStartCol o, visEndCol o⟩

/-- `calculateVirtualScrollHeight` (`data/VirtualDataManager.ts`): total
content height used to derive the maximal vertical scroll offset. -/
def calculateVirtualScrollHeight (rowCount : ℤ) (rowHeight headerHeight : ℚ) : ℚ :=
  headerHeight + (rowCount : ℚ) * rowHeight

/-- Maximal valid vertical scroll offset: content minus viewport, floored
at zero (spec §3 `ScrollState`; `useGridController.ts` line 396). -/
def maxScrollTop (o : VisibleRangeOptions) : ℚ :=
  max 0 (calculateVirtualScrollHeight o.totalRows o.rowHeight o.headerHeight
    - o.canvasRect.height)

/-- Maximal valid horizontal scroll offset (`useGridController.ts`
line 406): `max 0 (columnWidths.total − canvasWidth)`. -/
def maxScrollLeft (o : VisibleRangeOptions) : ℚ :=
  max 0 (o.columnWidths.total - o.canvasRect.width)

/-- The validity constraints claim C1 places on the input, as written:
positive viewport, positive row height, non-negative column widths, and
scroll offsets within `[0, max]`. -/
def ValidRangeInput (o : VisibleRangeOptions) : Prop :=
  0 < o.canvasRect.width ∧ 0 < o.canvasRect.height ∧
  0 < o.rowHeight ∧
  (∀ w ∈ o.columnWidths.columns, 0 ≤ w) ∧
  0 ≤ o.scrollTop ∧ o.scrollTop ≤ maxScrollTop o ∧
  0 ≤ o.scrollLeft ∧ o.scrollLeft ≤ maxScrollLeft o

/-! ## `utils/mouse.ts` — `calculateColumnWidths`

The residual-distribution `while` loops of the source
(`while (diff > 0 && order.length > 0) { const c = order[k % order.length];
if (ints[c.i] < maxWidth) { ints[c.i] += 1; diff -= 1; } k++ }`, and its
mirror for `diff < 0`) cycle round-robin through the fixed `order` array.
Starting from `k = 0`, executing the loop is the same as repeatedly
sweeping the whole `order` list in sequence, where each visit re-checks
`diff > 0` (resp. `diff < 0`) and the per-element guard; one sweep is
`passAdd`/`passSub` below.  A sweep that changes nothing while `diff ≠ 0`
leaves the loop in a state it will repeat forever, so the source loop
terminates iff at most `|diff|` sweeps reach `diff = 0`; `finalState`
returns `none` exactly when the source loop never exits. -/

/-- Input record of `calculateColumnWidths`
(`ColumnWidthCalculationOptions`), with the source's default values made
explicit at use sites. -/
structure ColumnWidthArgs where
  canvasWidth : ℚ
  columnCount : ℕ
  existingWidths : List ℚ
  minWidth : ℚ
  maxWidth : ℚ
  gutterWidth : ℚ
  fitToCanvas : Bool
  deriving Repr

/-- `availableWidth = Math.max(0, canvasWidth - gutterWidth)` (line 61). -/
def availableWidth (a : ColumnWidthArgs) : ℚ :=
  max 0 (a.canvasWidth - a.gutterWidth)

/-- `DEFAULT_COLUMN_WIDTH` (line 26). -/
def DEFAULT_COLUMN_WIDTH : ℚ := 120

/-- The base distribution (lines 72–87): existing widths (floored at 1, or
padded with the last entry `|| minWidth`), else equal shares
(`availableWidth / columnCount || minWidth`) when fitting, else the default
width. -/
def baseColumnWidths (a : ColumnWidthArgs) : List ℚ :=
  if a.columnCount ≤ a.existingWidths.length then
    (a.existingWidths.take a.columnCount).map (fun w => max 1 w)
  else if 0 < a.existingWidths.length then
    a.existingWidths ++
      List.replicate (a.columnCount - a.existingWidths.length)
        (jsOrQ ((a.existingWidths.getLast?).getD 0) a.minWidth)
  else if a.fitToCanvas then
    List.replicate a.columnCount
      (jsOrQ (availableWidth a / (a.columnCount : ℚ)) a.minWidth)
  else
    List.replicate a.columnCount DEFAULT_COLUMN_WIDTH

/-- Working floats (lines 90–97): scaled to fill `availableWidth` when
`fitToCanvas` (`scale = availableWidth / (baseTotal || 1)`). -/
def scaledFloats (a : ColumnWidthArgs) : List ℚ :=
  if a.fitToCanvas then
    (baseColumnWidths a).map
      (fun w => w * (availableWidth a / jsOrQ (baseColumnWidths a).sum 1))
  else
    baseColumnWidths a

/-- Clamping to `[minWidth, maxWidth]` (line 100). -/
def clampedFloats (a : ColumnWidthArgs) : List ℚ :=
  (scaledFloats a).map (fun w => max a.minWidth (min a.maxWidth w))

/-- `ints = clampedFloats.map(Math.floor)` (line 103). -/
def intsInit (a : ColumnWidthArgs) : List ℤ :=
  (clampedFloats a).map (fun w => ⌊w⌋)

/-- `diff = fitToCanvas ? Math.round(availableWidth - intSum) : 0`
(line 105). -/
def initialDiff (a : ColumnWidthArgs) : ℤ :=
  if a.fitToCanvas then jround (availableWidth a - ((intsInit a).sum : ℚ))
  else 0

/-- One entry of the `candidates` array (lines 109–114). -/
structure Cand where
  i : ℕ
  frac : ℚ
  growRoom : ℚ
  shrinkRoom : ℚ
  deriving DecidableEq, Repr

/-- The `candidates` array (lines 109–114).  At this point
`ints[i] = Math.floor(clampedFloats[i])`, so `growRoom`/`shrinkRoom` are
written directly from the floor of the float. -/
def candidates (a : ColumnWidthArgs) : List Cand :=
  (clampedFloats a).enum.map fun p =>
    { i := p.1, frac := p.2 - (⌊p.2⌋ : ℚ),
      growRoom := a.maxWidth - (⌊p.2⌋ : ℚ),
      shrinkRoom := (⌊p.2⌋ : ℚ) - a.minWidth }

/-- The comparator `(a, b) => b.frac - a.frac || a.i - b.i` of the add
branch (line 120): larger fractional part first, index ascending on ties. -/
def addOrderRel (c d : Cand) : Prop :=
  d.frac < c.frac ∨ (d.frac = c.frac ∧ c.i ≤ d.i)

instance : DecidableRel addOrderRel := fun c d => by
  unfold addOrderRel; exact instDecidableOr

/-- The comparator `(a, b) => a.frac - b.frac || a.i - b.i` of the remove
branch (line 133): smaller fractional part first, index ascending on ties. -/
def subOrderRel (c d : Cand) : Prop :=
  c.frac < d.frac ∨ (c.frac = d.frac ∧ c.i ≤ d.i)

instance : DecidableRel subOrderRel := fun c d => by
  unfold subOrderRel; exact instDecidableOr

/-- `order` for `diff > 0` (lines 118–120): candidates with grow room,
sorted by descending fractional part. -/
def orderAdd (a : ColumnWidthArgs) : List Cand :=
  ((candidates a).filter (fun c => decide (0 < c.growRoom))).insertionSort
    addOrderRel

/-- `order` for `diff < 0` (lines 131–133): candidates with shrink room,
sorted by ascending fractional part. -/
def orderSub (a : ColumnWidthArgs) : List Cand :=
  ((candidates a).filter (fun c => decide (0 < c.shrinkRoom))).insertionSort
    subOrderRel

/-- Mutable state of the distribution loops: the `ints` array and the
remaining residual `diff`. -/
structure DistState where
  ints : List ℤ
  diff : ℤ
  deriving DecidableEq, Repr

/-- One visit of the add loop at candidate `c` (lines 122–127): re-checks
the loop condition `diff > 0`, then `if (ints[c.i] < maxWidth)` adds one
pixel and decrements `diff`. -/
def stepAdd (maxW : ℚ) (st : DistState) (c : Cand) : DistState :=
  if 0 < st.diff ∧ ((st.ints.getD c.i 0 : ℚ) < maxW) then
    { ints := st.ints.set c.i (st.ints.getD c.i 0 + 1), diff := st.diff - 1 }
  else st

/-- One visit of the remove loop at candidate `c` (lines 135–141). -/
def stepSub (minW : ℚ) (st : DistState) (c : Cand) : DistState :=
  if st.diff < 0 ∧ (minW < (st.ints.getD c.i 0 : ℚ)) then
    { ints := st.ints.set c.i (st.ints.getD c.i 0 - 1), diff := st.diff + 1 }
  else st

/-- One full sweep of `order` in the add loop. -/
def passAdd (maxW : ℚ) (order : List Cand) (st : DistState) : DistState :=
  order.foldl (stepAdd maxW) st

/-- One full sweep of `order` in the remove loop. -/
def passSub (minW : ℚ) (order : List Cand) (st : DistState) : DistState :=
  order.foldl (stepSub minW) st

/-- Iterated sweeps of the add loop. -/
def passesAdd (maxW : ℚ) (order : List Cand) : ℕ → DistState → DistState
  | 0, st => st
  | n + 1, st => passesAdd maxW order n (passAdd maxW order st)

/-- Iterated sweeps of the remove loop. -/
def passesSub (minW : ℚ) (order : List Cand) : ℕ → DistState → DistState
  | 0, st => st
  | n + 1, st => passesSub minW order n (passSub minW order st)

/-- The state in which `calculateColumnWidths` leaves `ints`/`diff` after
lines 103–143, or `none` when the source `while` loop never terminates:
every terminating run of the loop performs exactly `|diff|` productive
iterations, and a full unproductive sweep repeats forever, so `|diff|`
sweeps decide the outcome. -/
def finalState (a : ColumnWidthArgs) : Option DistState :=
  if initialDiff a = 0 then some ⟨intsInit a, initialDiff a⟩
  else if 0 < initialDiff a then
    if (orderAdd a).isEmpty then some ⟨intsInit a, initialDiff a⟩
    else if (passesAdd a.maxWidth (orderAdd a) (initialDiff a).toNat
        ⟨intsInit a, initialDiff a⟩).diff = 0 then
      some (passesAdd a.maxWidth (orderAdd a) (initialDiff a).toNat
        ⟨intsInit a, initialDiff a⟩)
    else none
  else
    if (orderSub a).isEmpty then some ⟨intsInit a, initialDiff a⟩
    else if (passesSub a.minWidth (orderSub a) (-(initialDiff a)).toNat
        ⟨intsInit a, initialDiff a⟩).diff = 0 then
      some (passesSub a.minWidth (orderSub a) (-(initialDiff a)).toNat
        ⟨intsInit a, initialDiff a⟩)
    else none

/-- Result record of `calculateColumnWidths`
(`ColumnWidthCalculationResult`). -/
structure ColumnWidthResult where
  columnWidths : List ℤ
  totalWidth : ℚ
  availableWidth : ℚ
  deriving DecidableEq, Repr

/-- `calculateColumnWidths` (`utils/mouse.ts`, lines 51–151):
the `columnCount === 0` early return (lines 63–69), the distribution
pipeline, and `totalWidth = ints.reduce(+) + gutterWidth` (line 145).
Returns `none` exactly when the source's distribution loop diverges. -/
def calculateColumnWidths (a : ColumnWidthArgs) : Option ColumnWidthResult :=
  if a.columnCount = 0 then
    some ⟨[], a.gutterWidth, availableWidth a⟩
  else
    (finalState a).map fun st =>
      ⟨st.ints, (st.ints.sum : ℚ) + a.gutterWidth, availableWidth a⟩


/-- The input falsifying claim C1 as stated: every hypothesis the claim
names holds (positive viewport, positive row height, non-negative widths,
valid scroll offsets), yet the header is taller than the viewport, making
`endRow` negative. -/
def c1Input : VisibleRangeOptions :=
  { scrollTop := 0, scrollLeft := 0, canvasRect := ⟨50, 10⟩,
    columnWidths := ⟨0, [50], 50⟩, rowHeight := 1, headerHeight := 100,
    totalRows := 1000, totalColumns := 1, overscan := 0 }

/-- A well-formed concrete input (spec §8 scenario A's geometry) on which the
amended claim C1 is witnessed. -/
def c1WitnessInput : VisibleRangeOptions :=
  { scrollTop := 0, scrollLeft := 0, canvasRect := ⟨600, 400⟩,
    columnWidths := ⟨40, [120, 120, 120, 120, 120], 640⟩, rowHeight := 32,
    headerHeight := 36, totalRows := 100, totalColumns := 5, overscan := 0 }

/-- Remaining integer grow capacity of `order` relative to `ints`. -/
def capacityAdd (ma : ℤ) (order : List Cand) (ints : List ℤ) : ℤ :=
  (order.map (fun c => ma - ints.getD c.i 0)).sum

/-- Loop invariant of the add loop. -/
def InvAdd (A ma : ℤ) (order : List Cand) (st : DistState) : Prop :=
  0 ≤ st.diff ∧ st.diff ≤ capacityAdd ma order st.ints ∧
  st.ints.sum + st.diff = A ∧
  (∀ c ∈ order, st.ints.getD c.i 0 ≤ ma ∧ c.i < st.ints.length)


/-- The input falsifying claim C2's fit-exactness: canvas 100, gutter 40,
two columns, default bounds.  The equal shares (30 each) scale to fill 60px
but clamp up to `minWidth = 60` each, and no column has shrink room, so the
returned widths sum to 120, not to `canvasWidth - gutterWidth = 60`. -/
def c2Input : ColumnWidthArgs := ⟨100, 2, [], 60, 400, 40, true⟩

/-- Spec §8 scenario B: five 120px columns behind a 40px gutter on a 600px
canvas with `fitToCanvas`; widths scale to 112 each, summing exactly
to 560. -/
def c2WitnessInput : ColumnWidthArgs :=
  ⟨600, 5, [120, 120, 120, 120, 120], 60, 400, 40, true⟩

/-- The result `calculateColumnWidths` produces on `c2WitnessInput`. -/
def c2WitnessResult : ColumnWidthResult := ⟨[112, 112, 112, 112, 112], 600, 560⟩

/-- An input on which the source's residual-distribution loop never
terminates: widths `[30, 5]` fit `availableWidth = 35` before clamping, but
`maxWidth = 10` clamps the first column down, leaving residual `diff = 20`
while the only grow candidate (column 1) has 5px of room; once it reaches
`maxWidth` the loop keeps cycling without decrementing `diff`. -/
def c10Input : ColumnWidthArgs := ⟨75, 2, [30, 5], 1, 10, 40, true⟩

/-! ## `data/VirtualDataManager.ts` — the virtual data window manager

The manager's mutable fields (`pages`, `loadingPages`) become a state
record; the JS `Map` is an insertion-ordered association list (`Map.set` on
an existing key updates in place, on a new key appends).  To reason about
fetch idempotence the state additionally records the multiset of page
indices passed to `fetchRows` (`started`) and of completed fetches
(`settled`) — these are ghost fields, not present in the source.  An
`async` JS method runs synchronously up to its first `await`, so
`loadPage`'s prefix (mark loading, insert the placeholder page, call
`fetchRows`) is one atomic step, and each fetch's completion (the code
after `await`, or the `catch`) is a separate step.  All numbers here are
integers, with `Math.floor(a / b)` for positive `b` written as integer
division `a / b` and `row % pageSize` as truncated remainder. -/

/-- One cached page (`DataPage`); `error` abstracts the stored `Error`
object to its presence. -/
structure DataPage where
  offset : ℤ
  limit : ℤ
  dataRows : List (List String)
  timestamp : ℤ
  isLoading : Bool
  error : Bool
  deriving DecidableEq, Repr

/-- Manager configuration: `dataSource.pageSize ?? 500`, the row count,
`prefetch !== false`, `options.cacheSize || 50` and
`options.maxCacheAge || 300000`. -/
structure VDMConfig where
  pageSize : ℤ
  rowCount : ℤ
  prefetch : Bool
  cacheSize : ℕ
  maxCacheAge : ℤ
  deriving DecidableEq, Repr

/-- Manager state: the page cache and in-flight set, plus the ghost fetch
ledgers. -/
structure VDMState where
  pages : List (ℤ × DataPage)
  loading : List ℤ
  started : List ℤ
  settled : List ℤ
  deriving DecidableEq, Repr

/-- The state right after construction: empty cache, nothing in flight. -/
def initialVDMState : VDMState := ⟨[], [], [], []⟩

/-- `Map.get`. -/
def mapGet (m : List (ℤ × DataPage)) (k : ℤ) : Option DataPage :=
  match m with
  | [] => none
  | (k', v) :: t => if k' = k then some v else mapGet t k

/-- `Map.set`: update in place, else append (JS insertion order). -/
def mapSet (m : List (ℤ × DataPage)) (k : ℤ) (v : DataPage) :
    List (ℤ × DataPage) :=
  match m with
  | [] => [(k, v)]
  | (k', v') :: t => if k' = k then (k, v) :: t else (k', v') :: mapSet t k v

/-- `Set.add`. -/
def setAdd (s : List ℤ) (k : ℤ) : List ℤ := if k ∈ s then s else s ++ [k]

/-- `Set.delete`. -/
def setErase (s : List ℤ) (k : ℤ) : List ℤ :=
  s.filter (fun x => decide (x ≠ k))

/-- `hasPage` (lines 159–162): present, not loading, not errored. -/
def hasPage (st : VDMState) (p : ℤ) : Bool :=
  match mapGet st.pages p with
  | some pg => !pg.isLoading && !pg.error
  | none => false

/-- The synchronous prefix of `loadPage` (lines 121–141): compute
offset/limit, bail out on `limit <= 0`, mark loading, insert the
placeholder page, and invoke `fetchRows` (recorded in `started`). -/
def loadPageStart (cfg : VDMConfig) (now : ℤ) (st : VDMState) (pageIndex : ℤ) :
    VDMState :=
  if min cfg.pageSize (cfg.rowCount - pageIndex * cfg.pageSize) ≤ 0 then st
  else
    { pages := mapSet st.pages pageIndex
        ⟨pageIndex * cfg.pageSize,
         min cfg.pageSize (cfg.rowCount - pageIndex * cfg.pageSize),
         [], now, true, false⟩,
      loading := setAdd st.loading pageIndex,
      started := st.started ++ [pageIndex],
      settled := st.settled }

/-- `startPage = Math.floor(visibleRange.startRow / pageSize)` (line 86). -/
def pageOfStart (cfg : VDMConfig) (r : VisibleRange) : ℤ :=
  r.startRow / cfg.pageSize

/-- `endPage = Math.floor((visibleRange.endRow - 1) / pageSize)` (line 87). -/
def pageOfEnd (cfg : VDMConfig) (r : VisibleRange) : ℤ :=
  (r.endRow - 1) / cfg.pageSize

/-- The inclusive integer interval `[a, b]` as a list. -/
def intRange (a b : ℤ) : List ℤ :=
  (List.range (b + 1 - a).toNat).map (fun (i : ℕ) => a + (i : ℤ))

/-- `Math.ceil(a / b)` for positive `b`: `⌈a/b⌉ = -⌊(-a)/b⌋`. -/
def jceilDiv (a b : ℤ) : ℤ := -((-a) / b)

/-- One iteration of the required-pages loop (lines 92–96): fetch when
neither available nor already loading. -/
def guardedLoad (cfg : VDMConfig) (now : ℤ) (s : VDMState) (q : ℤ) :
    VDMState :=
  if ¬ hasPage s q = true ∧ q ∉ s.loading then loadPageStart cfg now s q
  else s

/-- One iteration of the prefetch loop (lines 100–111): additionally bounds
the page index to `[0, Math.ceil(rowCount / pageSize))`; the swallowed
`.catch` affects only error surfacing, not this state. -/
def guardedPrefetchLoad (cfg : VDMConfig) (now : ℤ) (s : VDMState) (q : ℤ) :
    VDMState :=
  if 0 ≤ q ∧ q < jceilDiv cfg.rowCount cfg.pageSize ∧
      ¬ hasPage s q = true ∧ q ∉ s.loading then
    loadPageStart cfg now s q
  else s

/-- `ensureDataLoaded` (lines 84–119): start fetches for every required
page in `[startPage, endPage]`, then opportunistically prefetch the two
adjacent pages. -/
def ensureDataLoaded (cfg : VDMConfig) (now : ℤ) (st : VDMState)
    (r : VisibleRange) : VDMState :=
  let st1 := (intRange (pageOfStart cfg r) (pageOfEnd cfg r)).foldl
    (guardedLoad cfg now) st
  if cfg.prefetch then
    [pageOfStart cfg r - 1, pageOfEnd cfg r + 1].foldl
      (guardedPrefetchLoad cfg now) st1
  else st1

/-- Order of cache entries by `timestamp` (the comparator
`(a, b) => a.timestamp - b.timestamp`; JS `Array.sort` is stable, as is
insertion sort). -/
def tsLE (a b : ℤ × DataPage) : Prop := a.2.timestamp ≤ b.2.timestamp

instance : DecidableRel tsLE := fun a b => by
  unfold tsLE; exact Int.decLe _ _

instance : IsTotal (ℤ × DataPage) tsLE :=
  ⟨fun a b => le_total a.2.timestamp b.2.timestamp⟩

instance : IsTrans (ℤ × DataPage) tsLE :=
  ⟨fun _ _ _ hab hbc => le_trans hab hbc⟩

/-- The keys the size-bound `while`/`shift` loop of `cleanupCache`
(lines 235–238) evicts: the oldest `length - cacheSize` entries of the
timestamp-sorted copy (none when within the limit). -/
def sizeEvictedKeys (cfg : VDMConfig) (m : List (ℤ × DataPage)) : List ℤ :=
  ((m.insertionSort tsLE).take (m.length - cfg.cacheSize)).map Prod.fst

/-- `cleanupCache` (lines 228–247): delete the size-evicted keys from the
map (which keeps the map's own insertion order), then drop entries older
than `maxCacheAge`. -/
def cleanupCache (cfg : VDMConfig) (now : ℤ) (m : List (ℤ × DataPage)) :
    List (ℤ × DataPage) :=
  (m.filter (fun e => decide (e.1 ∉ sizeEvictedKeys cfg m))).filter
    (fun e => decide (now - e.2.timestamp ≤ cfg.maxCacheAge))

/-- The completion of a successful fetch (lines 142–150): store the data,
clear `isLoading`, refresh the timestamp, remove from `loadingPages`, run
`cleanupCache`.  The continuation mutates the page object it captured; it
is still in the map at the same key in every run without `clearCache`. -/
def resolveOk (cfg : VDMConfig) (t : ℤ) (d : List (List String))
    (st : VDMState) (p : ℤ) : VDMState :=
  { pages := cleanupCache cfg t
      (match mapGet st.pages p with
       | some pg => mapSet st.pages p
           { pg with dataRows := d, isLoading := false, timestamp := t }
       | none => st.pages),
    loading := setErase st.loading p,
    started := st.started,
    settled := st.settled ++ [p] }

/-- The completion of a failed fetch (lines 152–156): record the error,
clear `isLoading`, remove from `loadingPages`; no cleanup. -/
def resolveErr (_cfg : VDMConfig) (st : VDMState) (p : ℤ) : VDMState :=
  { pages :=
      (match mapGet st.pages p with
       | some pg => mapSet st.pages p { pg with error := true, isLoading := false }
       | none => st.pages),
    loading := setErase st.loading p,
    started := st.started,
    settled := st.settled ++ [p] }

/-- The events the manager reacts to: an `ensureDataLoaded` call, or the
completion (success/failure) of an in-flight fetch.  A completion event is
only enabled for a page actually in flight; a disabled event is a no-op. -/
inductive VDMAction where
  | ensure (now : ℤ) (r : VisibleRange)
  | fetchOk (p : ℤ) (t : ℤ) (d : List (List String))
  | fetchErr (p : ℤ)
  deriving DecidableEq, Repr

/-- One transition of the manager. -/
def vdmStep (cfg : VDMConfig) (st : VDMState) : VDMAction → VDMState
  | .ensure now r => ensureDataLoaded cfg now st r
  | .fetchOk p t d => if p ∈ st.loading then resolveOk cfg t d st p else st
  | .fetchErr p => if p ∈ st.loading then resolveErr cfg st p else st

/-- Execution of an event sequence from the freshly constructed manager. -/
def vdmRun (cfg : VDMConfig) (acts : List VDMAction) : VDMState :=
  acts.foldl (vdmStep cfg) initialVDMState

/-- `visibleRange` covers page `p` when `p ∈ [startPage, endPage]`. -/
def covers (cfg : VDMConfig) (r : VisibleRange) (p : ℤ) : Prop :=
  pageOfStart cfg r ≤ p ∧ p ≤ pageOfEnd cfg r

/-- `VirtualDataManager.getCell` (lines 164–180).  Returns `none` for JS
`null`.  (For a negative `row` with a loaded page the source would throw on
`page.data[rowInPage][col]`; that corner is outside every claim and is
modelled as `none`.) -/
def vGetCell (cfg : VDMConfig) (st : VDMState) (row col : ℤ) : Option String :=
  match mapGet st.pages (row / cfg.pageSize) with
  | none => none
  | some pg =>
    if pg.isLoading || pg.error then none
    else if 0 ≤ row.tmod cfg.pageSize ∧
        row.tmod cfg.pageSize < (pg.dataRows.length : ℤ) ∧
        col < ((pg.dataRows.getD (row.tmod cfg.pageSize).toNat []).length : ℤ)
    then
      some (jsOrStr
        ((pg.dataRows.getD (row.tmod cfg.pageSize).toNat []).get? col.toNat))
    else none

/-- `DataManager.getCell` in virtual mode with a live manager
(`data/DataManager.ts`, lines 85–88): the result of
`virtualManager.getCell(row, col)` ORed with the empty string — the façade
converts the manager's `null` (and any falsy value) to the empty string. -/
def dmGetCell (cfg : VDMConfig) (st : VDMState) (row col : ℤ) : String :=
  jsOrStr (vGetCell cfg st row col)

/-- A concrete configuration (all source defaults) for the C6 evaluation. -/
def c6Cfg : VDMConfig := ⟨500, 1000, true, 50, 300000⟩

/-- Invariant of ensure-only executions, relative to one page `p`: the
fetch ledger for `p` has exactly one entry iff `p` is in flight, and every
cached page object is still in its loading placeholder state. -/
def EnsureInv (p : ℤ) (st : VDMState) : Prop :=
  (p ∈ st.loading → st.started.count p = 1) ∧
  (p ∉ st.loading → st.started.count p = 0) ∧
  (∀ e ∈ st.pages, e.2.isLoading = true)

/-- The visible range used in the C3 witness run. -/
def c3Rng : VisibleRange := ⟨0, 10, 0, 1⟩

/-- The two-call witness run for C3: two overlapping `ensureDataLoaded`
calls, no resolution in between. -/
def c3Acts : List VDMAction :=
  [VDMAction.ensure 0 c3Rng, VDMAction.ensure 7 c3Rng]

/-! ## `hooks/useGridController.ts` — the pointer-interaction machine

`dispatchEvent` (lines 330–687) is modelled for the three pointer event
kinds the claims quantify over (`pointerDown`, `pointerMove`, `pointerUp`).
The values the dispatcher merely reads — canvas geometry, the scrollbar
geometry produced by `useScrollbarVisibility`, and the feature flags — are
an environment record; the values it mutates (scroll offsets, column
widths via `resizeColumn`, the three session refs, `currentOrderRef`, and
the selection) are the controller state.  `state` is the snapshot taken at
the top of `dispatchEvent`, so the column-drag block reads the
pre-dispatch `columnWidths`/`scrollLeft` even when an earlier block
changed them.  The purely visual drag overlay (`columnDragVisualRef`,
eased positions, `drawRef`) and the hover handlers are not part of any
claim and are not modelled.  `ColumnResizeManager` is imported from
`utils/columnResizing`, a file absent from the repository snapshot; the
identical class shipped in `utils/canvasDpr.ts` (lines 80–230) is used as
its source. -/

/-- One side of the scrollbar geometry the dispatcher reads from
`state.scrollbarState` (`thumbTop`/`thumbHeight` for the vertical side,
`thumbLeft`/`thumbWidth` for the horizontal one). -/
structure ScrollbarSide where
  visible : Bool
  thumbStart : ℚ
  thumbExtent : ℚ
  deriving DecidableEq, Repr

/-- The read-only inputs of `dispatchEvent`. -/
structure ControllerEnv where
  canvasWidth : ℚ
  canvasHeight : ℚ
  headerHeight : ℚ
  rowHeight : ℚ
  totalRows : ℤ
  vertical : ScrollbarSide
  horizontal : ScrollbarSide
  minColumnWidth : ℚ
  maxColumnWidth : ℚ
  resizable : Bool
  draggableColumns : Bool
  hasOrderCallback : Bool
  deriving DecidableEq, Repr

/-- Which scrollbar a drag session grabbed (`scrollbarDragRef.type`). -/
inductive SbKind where
  | vertical
  | horizontal
  deriving DecidableEq, Repr

/-- `scrollbarDragRef.current` when a drag is live. -/
structure ScrollbarDrag where
  kind : SbKind
  pointerOffset : ℚ
  deriving DecidableEq, Repr

/-- `ColumnResizeManager.activeResize`. -/
structure ResizeSession where
  columnIndex : ℕ
  startX : ℚ
  startWidth : ℚ
  currentWidth : ℚ
  deriving DecidableEq, Repr

/-- `columnDragRef.current.status`. -/
inductive DragStatus where
  | pending
  | dragging
  deriving DecidableEq, Repr

/-- `columnDragRef.current` when non-null. -/
structure DragSession where
  status : DragStatus
  startX : ℚ
  startY : ℚ
  startVisibleIndex : ℕ
  pointerOffsetX : ℚ
  currentPointerX : ℚ
  initialOrder : Option (List ℕ)
  draggedDataIndex : Option ℕ
  previewOrder : Option (List ℕ)
  selectedDataIndices : Option (List ℕ)
  deriving DecidableEq, Repr

/-- `SelectionRange` (`types.ts`), restricted to the three shapes the
dispatcher constructs. -/
inductive SelectionRange where
  | column (startCol endCol : ℕ)
  | row (startRow endRow : ℤ)
  | cell (startRow : ℤ) (startCol : ℕ) (endRow : ℤ) (endCol : ℕ)
  deriving DecidableEq, Repr

/-- The controller-owned mutable state. -/
structure CtrlState where
  scrollTop : ℚ
  scrollLeft : ℚ
  columnWidths : ColumnWidths
  scrollbarDrag : Option ScrollbarDrag
  resizeActive : Bool
  resizeSession : Option ResizeSession
  columnDrag : Option DragSession
  currentOrder : List ℕ
  selection : Option SelectionRange
  deriving DecidableEq, Repr

/-- The pointer events of the claims. -/
inductive CtrlEvent where
  | down (x y : ℚ) (hasNative : Bool)
  | move (x y : ℚ)
  | up
  deriving DecidableEq, Repr

/-- `ColumnResizeManager` option `handleWidth: 8`. -/
def HANDLE_WIDTH : ℚ := 8

/-- The shared column walk of `getHeaderColumnFromPoint` and
`getCellFromPoint` (`anchorCalculations.ts`): first column whose span
`[currentX, currentX + width)` contains `adjX`. -/
def colAtX (adjX : ℚ) : ℚ → List ℚ → Option ℕ
  | _, [] => none
  | acc, w :: ws =>
    if acc ≤ adjX ∧ adjX < acc + w then some 0
    else (colAtX adjX (acc + w) ws).map (· + 1)

/-- `AnchorCalculator.getHeaderColumnFromPoint` (lines 371–388), with the
`isPointInHeader` guard (`0 ≤ y < headerHeight`) inlined. -/
def getHeaderColumnFromPoint (env : ControllerEnv) (cw : ColumnWidths)
    (scrollLeft x y : ℚ) : Option ℕ :=
  if ¬ (0 ≤ y ∧ y < env.headerHeight) then none
  else if x + scrollLeft < cw.gutter then none
  else colAtX (x + scrollLeft) cw.gutter cw.columns

/-- `AnchorCalculator.getRowFromPoint` (lines 357–362). -/
def getRowFromPoint (env : ControllerEnv) (scrollTop y : ℚ) : Option ℤ :=
  if y < env.headerHeight then none
  else if ⌊(y - env.headerHeight + scrollTop) / env.rowHeight⌋ < 0 then none
  else some ⌊(y - env.headerHeight + scrollTop) / env.rowHeight⌋

/-- `AnchorCalculator.getCellFromPoint` (lines 322–348). -/
def getCellFromPoint (env : ControllerEnv) (cw : ColumnWidths)
    (scrollTop scrollLeft x y : ℚ) : Option (ℤ × ℕ) :=
  if y < env.headerHeight then none
  else if ⌊(y - env.headerHeight + scrollTop) / env.rowHeight⌋ < 0 then none
  else if x + scrollLeft < cw.gutter then none
  else (colAtX (x + scrollLeft) cw.gutter cw.columns).map
    (fun c => (⌊(y - env.headerHeight + scrollTop) / env.rowHeight⌋, c))

/-- The x coordinate of `AnchorCalculator.getHeaderCellRect` (lines
138–165), `none` when the rect is `null` (column missing or offscreen). -/
def headerCellRectX (env : ControllerEnv) (cw : ColumnWidths)
    (scrollLeft : ℚ) (col : ℕ) : Option ℚ :=
  if cw.columns.length ≤ col then none
  else if cw.gutter - scrollLeft + (cw.columns.take col).sum +
        cw.columns.getD col 0 < 0 ∨
      env.canvasWidth < cw.gutter - scrollLeft + (cw.columns.take col).sum then
    none
  else some (max 0 (cw.gutter - scrollLeft + (cw.columns.take col).sum))

/-- The handle walk of `ColumnResizeManager.getResizeHandles`
(`canvasDpr.ts` lines 103–141): accumulates the column trailing edge `x`,
breaks once `screenX ≥ canvasWidth + handleWidth/2`, skips handles wholly
left of the viewport, and records `(columnIndex, rect.x)` with
`rect.x = screenX − handleWidth/2`. -/
def resizeHandlesAux (canvasW scrollLeft : ℚ) : ℕ → ℚ → List ℚ → List (ℕ × ℚ)
  | _, _, [] => []
  | i, x, w :: ws =>
    if canvasW + HANDLE_WIDTH / 2 ≤ x + w - scrollLeft then []
    else if x + w - scrollLeft - HANDLE_WIDTH / 2 + HANDLE_WIDTH ≤ 0 then
      resizeHandlesAux canvasW scrollLeft (i + 1) (x + w) ws
    else
      (i, x + w - scrollLeft - HANDLE_WIDTH / 2) ::
        resizeHandlesAux canvasW scrollLeft (i + 1) (x + w) ws

/-- `ColumnResizeManager.getResizeHandles`. -/
def getResizeHandles (cw : ColumnWidths) (canvasW scrollLeft : ℚ) :
    List (ℕ × ℚ) :=
  resizeHandlesAux canvasW scrollLeft 0 cw.gutter cw.columns

/-- `ColumnResizeManager.getHandleAtPoint` (lines 143–149): hit-tests the
x range only — the y coordinate is ignored. -/
def getHandleAtPoint (x : ℚ) (handles : List (ℕ × ℚ)) : Option (ℕ × ℚ) :=
  handles.find? (fun h => decide (h.2 ≤ x ∧ x ≤ h.2 + HANDLE_WIDTH))

/-- The dispatcher's pointer-down resize hit (lines 427–435): the handle
list filtered to `rect.x ≥ gutter`, then `getHandleAtPoint`. -/
def resizeDownHit (env : ControllerEnv) (cw : ColumnWidths)
    (scrollLeft x : ℚ) : Option (ℕ × ℚ) :=
  getHandleAtPoint x ((getResizeHandles cw env.canvasWidth scrollLeft).filter
    (fun h => decide (cw.gutter ≤ h.2)))

/-- `resizeColumn` of the grid state (`useGridState.ts` lines 216–231):
in-range index updates the column to `max 50 (min 500 width)` and
recomputes `total = gutter + Σ columns`. -/
def resizeColumn (cw : ColumnWidths) (index : ℕ) (width : ℚ) : ColumnWidths :=
  if index < cw.columns.length then
    { gutter := cw.gutter,
      columns := cw.columns.set index (max 50 (min 500 width)),
      total := cw.gutter + (cw.columns.set index (max 50 (min 500 width))).sum }
  else cw

/-- The scrollbar pointer-down block (lines 355–387): the new scrollbar
drag, and whether the block called `preventDefault` (it does so for any
click in a visible scrollbar's track, thumb hit or not). -/
def downScrollbar (env : ControllerEnv) (st : CtrlState) (x y : ℚ) :
    Option ScrollbarDrag × Bool :=
  if env.vertical.visible = true ∧ env.canvasWidth - SCROLLBAR_WIDTH ≤ x then
    (if env.vertical.thumbStart ≤ y ∧
        y ≤ env.vertical.thumbStart + env.vertical.thumbExtent then
      some ⟨SbKind.vertical, y - env.vertical.thumbStart⟩
    else st.scrollbarDrag, true)
  else if env.horizontal.visible = true ∧
      env.canvasHeight - SCROLLBAR_WIDTH ≤ y then
    (if env.horizontal.thumbStart ≤ x ∧
        x ≤ env.horizontal.thumbStart + env.horizontal.thumbExtent then
      some ⟨SbKind.horizontal, x - env.horizontal.thumbStart⟩
    else st.scrollbarDrag, true)
  else (st.scrollbarDrag, false)

/-- The resize pointer-down block (lines 424–441): on a handle hit, start
a resize session at the column's current width; second component is
whether the block called `preventDefault`. -/
def downResizeStep (env : ControllerEnv) (st : CtrlState) (x : ℚ) :
    CtrlState × Bool :=
  if env.resizable = true then
    match resizeDownHit env st.columnWidths st.scrollLeft x with
    | some h =>
      ({ st with
          resizeActive := true
          resizeSession := some ⟨h.1, x, st.columnWidths.columns.getD h.1 0,
            st.columnWidths.columns.getD h.1 0⟩ }, true)
    | none => (st, false)
  else (st, false)

/-- The header/gutter/cell selection pointer-down block (lines 459–492):
header hit selects the column and, when `draggableColumns`, primes a
pending column drag; gutter hit selects the row; otherwise a cell hit
selects the cell. -/
def downSelect (env : ControllerEnv) (st : CtrlState) (x y : ℚ) : CtrlState :=
  if 0 ≤ y ∧ y < env.headerHeight then
    match getHeaderColumnFromPoint env st.columnWidths st.scrollLeft x y with
    | some col =>
      { st with
        selection := some (SelectionRange.column col col)
        columnDrag :=
          if env.draggableColumns = true then
            some
              { status := DragStatus.pending, startX := x, startY := y,
                startVisibleIndex := col,
                pointerOffsetX :=
                  match headerCellRectX env st.columnWidths st.scrollLeft col
                    with
                  | some rx => x - rx
                  | none => 0,
                currentPointerX := x,
                initialOrder := none, draggedDataIndex := none,
                previewOrder := none, selectedDataIndices := none }
          else st.columnDrag }
    | none => st
  else if env.headerHeight ≤ y ∧ x < st.columnWidths.gutter then
    match getRowFromPoint env st.scrollTop y with
    | some r => if 0 ≤ r then
        { st with selection := some (SelectionRange.row r r) }
      else st
    | none => st
  else
    match getCellFromPoint env st.columnWidths st.scrollTop st.scrollLeft x y
      with
    | some rc =>
      { st with selection := some (SelectionRange.cell rc.1 rc.2 rc.1 rc.2) }
    | none => st

/-- `dispatchEvent` on `pointerDown`: scrollbar block, then resize block,
then — only if there is no native event or no block called
`preventDefault` — the selection/drag-priming block. -/
def dispatchDown (env : ControllerEnv) (st : CtrlState) (x y : ℚ)
    (n : Bool) : CtrlState :=
  if n = false ∨ ((downScrollbar env st x y).2 = false ∧
      (downResizeStep env
        { st with scrollbarDrag := (downScrollbar env st x y).1 } x).2
        = false) then
    downSelect env
      (downResizeStep env
        { st with scrollbarDrag := (downScrollbar env st x y).1 } x).1 x y
  else
    (downResizeStep env
      { st with scrollbarDrag := (downScrollbar env st x y).1 } x).1

/-- Vertical scrollbar content height (line 394):
`max 1 (canvasHeight − HEADER_HEIGHT − (horizontal visible ? SCROLLBAR_WIDTH : 0))`. -/
def vContentHeight (env : ControllerEnv) : ℚ :=
  max 1 (env.canvasHeight - HEADER_HEIGHT -
    (if env.horizontal.visible = true then SCROLLBAR_WIDTH else 0))

/-- Vertical thumb travel (line 395). -/
def vTravel (env : ControllerEnv) : ℚ :=
  max 1 (vContentHeight env - env.vertical.thumbExtent)

/-- Dragged vertical thumb position (line 396). -/
def vThumbTop (env : ControllerEnv) (off y : ℚ) : ℚ :=
  max 0 (min (vTravel env) (y - HEADER_HEIGHT - off))

/-- `maxScrollTop` of the vertical scrollbar drag (line 398). -/
def vMaxScrollTop (env : ControllerEnv) : ℚ :=
  max 0 ((env.totalRows : ℚ) * env.rowHeight + HEADER_HEIGHT -
    env.canvasHeight)

/-- New `scrollTop` during a vertical scrollbar drag (lines 397–399; the
`travel <= 0` guard is dead since `travel = max 1 … ≥ 1`). -/
def vNewScrollTop (env : ControllerEnv) (off y : ℚ) : ℚ :=
  vThumbTop env off y / vTravel env * vMaxScrollTop env

/-- Horizontal scrollbar content width (line 405). -/
def hContentWidth (env : ControllerEnv) : ℚ :=
  max 1 (env.canvasWidth -
    (if env.vertical.visible = true then SCROLLBAR_WIDTH else 0))

/-- Horizontal thumb travel (line 406). -/
def hTravel (env : ControllerEnv) : ℚ :=
  max 1 (hContentWidth env - env.horizontal.thumbExtent)

/-- Dragged horizontal thumb position (line 407). -/
def hThumbLeft (env : ControllerEnv) (off x : ℚ) : ℚ :=
  max 0 (min (hTravel env) (x - off))

/-- `maxScrollLeft` of the horizontal scrollbar drag (line 409). -/
def hMaxScrollLeft (env : ControllerEnv) (cw : ColumnWidths) : ℚ :=
  max 0 (cw.total - env.canvasWidth)

/-- New `scrollLeft` during a horizontal scrollbar drag (lines 408–410). -/
def hNewScrollLeft (env : ControllerEnv) (cw : ColumnWidths) (off x : ℚ) :
    ℚ :=
  hThumbLeft env off x / hTravel env * hMaxScrollLeft env cw

/-- The scrollbar pointer-move block (lines 388–414). -/
def moveScrollbar (env : ControllerEnv) (st : CtrlState) (x y : ℚ) :
    CtrlState :=
  match st.scrollbarDrag with
  | none => st
  | some d =>
    match d.kind with
    | SbKind.vertical =>
      if env.vertical.visible = true then
        { st with scrollTop := vNewScrollTop env d.pointerOffset y }
      else st
    | SbKind.horizontal =>
      if env.horizontal.visible = true then
        { st with scrollLeft :=
            hNewScrollLeft env st.columnWidths d.pointerOffset x }
      else st

/-- The resize pointer-move block (lines 443–450):
`ColumnResizeManager.updateResize` clamps the live width to the manager's
`[minColumnWidth, maxColumnWidth]`, then `resizeColumn` applies it to the
grid state. -/
def clampResize (env : ControllerEnv) (rs : ResizeSession) (x : ℚ) : ℚ :=
  max env.minColumnWidth (min env.maxColumnWidth
    (rs.startWidth + (x - rs.startX)))

def moveResize (env : ControllerEnv) (st : CtrlState) (x : ℚ) : CtrlState :=
  if st.resizeActive = true then
    match st.resizeSession with
    | some rs =>
      { st with
        resizeSession := some { rs with currentWidth := clampResize env rs x }
        columnWidths := resizeColumn st.columnWidths rs.columnIndex
          (clampResize env rs x) }
    | none => st
  else st

/-- The drag-start order snapshot (lines 504–507). -/
def snapshotOrderOf (count : ℕ) (cur : List ℕ) : List ℕ :=
  if 0 < count ∧ cur.length = count then cur else List.range count

/-- The guarded initial order the dragging block re-reads (lines 543–545). -/
def initOrderOf (count : ℕ) (io : Option (List ℕ)) : List ℕ :=
  match io with
  | some l => if l.length = count then l else List.range count
  | none => List.range count

/-- The data indices covered by a column selection at drag start
(lines 513–527): positions `max 0 (min sc ec) … min (len−1) (max sc ec)`
of the snapshot order (out-of-range reads are skipped). -/
def selSnapshot (snapshot : List ℕ) (sel : Option SelectionRange) :
    Option (List ℕ) :=
  match sel with
  | some (SelectionRange.column sc ec) =>
    some ((List.range
        (min (snapshot.length - 1) (max sc ec) + 1 - max 0 (min sc ec))).filterMap
      (fun k => snapshot.get? (max 0 (min sc ec) + k)))
  | _ => none

/-- The drop-index walk over visible column midpoints (lines 534–541):
first column whose midpoint lies right of the pointer, defaulting to
`count` (insert after the last column). -/
def dropIndexAux (x : ℚ) : ℕ → ℚ → List ℚ → ℕ
  | i, _, [] => i
  | i, boundary, w :: ws =>
    if x < boundary + w / 2 then i else dropIndexAux x (i + 1) (boundary + w) ws

/-- The dragging block's drop index for pointer `x`. -/
def dropIndexAt (cw : ColumnWidths) (scrollLeft x : ℚ) : ℕ :=
  dropIndexAux x 0 (cw.gutter - scrollLeft) cw.columns

/-- The base list of the preview order (lines 548–551): every entry of the
initial order except position `movingFrom`. -/
def buildBase (initial : List ℕ) (count movingFrom : ℕ) : List ℕ :=
  (List.range count).filterMap
    (fun i => if i = movingFrom then none else some (initial.getD i i))

/-- The preview order (lines 546–556): remove the dragged entry and splice
it back at the clamped drop position. -/
def previewOf (initial : List ℕ) (count movingFrom dropIdx : ℕ) : List ℕ :=
  List.insertIdx
    (if movingFrom < min count dropIdx then
      min (buildBase initial count movingFrom).length (min count dropIdx - 1)
    else min (buildBase initial count movingFrom).length (min count dropIdx))
    (initial.getD movingFrom movingFrom)
    (buildBase initial count movingFrom)

/-- Visible positions of the selected data indices in an order
(`order.indexOf`, lines 609–613 and 658–662). -/
def mappedVisibleOf (selected : List ℕ) (ord : List ℕ) : List ℕ :=
  selected.filterMap (fun d => ord.findIdx? (fun v => v == d))

/-- The column-selection remap applied mid-drag (lines 607–622) and on
commit (lines 656–668): when some selected data index is still present,
select the span `[min mapped, max mapped]`. -/
def applyColumnRemap (st : CtrlState) (selected : Option (List ℕ))
    (ord : List ℕ) : CtrlState :=
  match selected with
  | some l =>
    match mappedVisibleOf l ord with
    | [] => st
    | m :: ms =>
      { st with
        selection :=
          some (SelectionRange.column (ms.foldl min m) (ms.foldl max m)) }
  | none => st

/-- The column-drag pointer-move block (lines 493–644), reading the
dispatch-start snapshot `snapW`/`snapSL` of `state.columnWidths` and
`state.scrollLeft`: a pending session past the 4px threshold is promoted
(snapshotting order, dragged index and selection), and a dragging session
recomputes the preview order and remaps the column selection. -/
def moveDrag (env : ControllerEnv) (snapW : ColumnWidths) (snapSL : ℚ)
    (st : CtrlState) (x y : ℚ) : CtrlState :=
  if env.draggableColumns = true then
    match st.columnDrag with
    | none => st
    | some s =>
      let count := snapW.columns.length
      let s1 :=
        if s.status = DragStatus.pending ∧
            4 ≤ max |x - s.startX| |y - s.startY| then
          { s with
            status := DragStatus.dragging
            initialOrder := some (snapshotOrderOf count st.currentOrder)
            draggedDataIndex := some ((snapshotOrderOf count
              st.currentOrder).getD s.startVisibleIndex s.startVisibleIndex)
            selectedDataIndices := selSnapshot
              (snapshotOrderOf count st.currentOrder) st.selection }
        else s
      if s1.status = DragStatus.dragging then
        let po := previewOf (initOrderOf count s1.initialOrder) count
          s1.startVisibleIndex (dropIndexAt snapW snapSL x)
        let s2 := { s1 with currentPointerX := x, previewOrder := some po }
        applyColumnRemap { st with columnDrag := some s2 }
          s1.selectedDataIndices po
      else { st with columnDrag := some s1 }
  else st

/-- `dispatchEvent` on `pointerMove`: scrollbar drag, then resize update,
then the column-drag block (which reads the dispatch-start snapshot of
`state.columnWidths` and `state.scrollLeft`). -/
def dispatchMove (env : ControllerEnv) (st : CtrlState) (x y : ℚ) :
    CtrlState :=
  moveDrag env st.columnWidths st.scrollLeft
    (moveResize env (moveScrollbar env st x y) x) x y

/-- The resize pointer-up block (lines 451–458): `endResize` commits the
final width and clears the session. -/
def upResize (st : CtrlState) : CtrlState :=
  if st.resizeActive = true then
    { st with
      columnWidths :=
        match st.resizeSession with
        | some rs => resizeColumn st.columnWidths rs.columnIndex
            rs.currentWidth
        | none => st.columnWidths
      resizeActive := false
      resizeSession := none }
  else st

/-- The reorder pointer-up block (lines 647–678): a promoted session with
a preview order and a registered callback emits the committed order
exactly once, installs it as the current order and remaps the selection;
in every case the drag session is cleared. -/
def upCommit (env : ControllerEnv) (st : CtrlState) :
    CtrlState × List (List ℕ) :=
  match st.columnDrag with
  | some d =>
    if env.draggableColumns = true ∧ d.status = DragStatus.dragging ∧
        env.hasOrderCallback = true then
      match d.previewOrder with
      | some po =>
        (applyColumnRemap
          { st with currentOrder := po, columnDrag := none }
          d.selectedDataIndices po, [po])
      | none => ({ st with columnDrag := none }, [])
    else ({ st with columnDrag := none }, [])
  | none => ({ st with columnDrag := none }, [])

/-- `dispatchEvent` on `pointerUp`: clear the scrollbar drag, finish the
resize, then run the reorder commit. -/
def dispatchUp (env : ControllerEnv) (st : CtrlState) :
    CtrlState × List (List ℕ) :=
  upCommit env (upResize { st with scrollbarDrag := none })

/-- `dispatchEvent` (lines 330–687) on the three pointer event kinds,
returning the new controller state and the `onColumnOrderChange`
emissions of this dispatch. -/
def dispatchEvent (env : ControllerEnv) (st : CtrlState) :
    CtrlEvent → CtrlState × List (List ℕ)
  | CtrlEvent.down x y n => (dispatchDown env st x y n, [])
  | CtrlEvent.move x y => (dispatchMove env st x y, [])
  | CtrlEvent.up => dispatchUp env st

/-- An event sequence run, accumulating the emitted orders in sequence. -/
def runCtrl (env : ControllerEnv) : CtrlState → List CtrlEvent →
    CtrlState × List (List ℕ)
  | st, [] => (st, [])
  | st, e :: rest =>
    ((runCtrl env (dispatchEvent env st e).1 rest).1,
     (dispatchEvent env st e).2 ++
       (runCtrl env (dispatchEvent env st e).1 rest).2)

/-- At most one interaction session is live: a column drag (pending or
promoted) excludes both a scrollbar drag and a resize session. -/
def Excl (s : CtrlState) : Prop :=
  s.columnDrag ≠ none → s.scrollbarDrag = none ∧ s.resizeActive = false

/-- No interaction session is live. -/
def SessionFree (s : CtrlState) : Prop :=
  s.scrollbarDrag = none ∧ s.resizeActive = false ∧ s.columnDrag = none

/-- Well-formed single-pointer streams: downs and ups alternate (the
Boolean tracks whether the pointer is currently down) and every
pointer-down carries a native browser event. -/
def wfPtr : Bool → List CtrlEvent → Prop
  | _, [] => True
  | b, CtrlEvent.down _ _ n :: rest => b = false ∧ n = true ∧ wfPtr true rest
  | b, CtrlEvent.move _ _ :: rest => wfPtr b rest
  | b, CtrlEvent.up :: rest => b = true ∧ wfPtr false rest

/-- The environment of the C4 counterexample: a 400×300 canvas with a
visible vertical scrollbar (thumb at 36, height 100), resizable and
draggable columns. -/
def c4Env : ControllerEnv :=
  ⟨400, 300, 36, 24, 100, ⟨true, 36, 100⟩, ⟨false, 0, 0⟩, 50, 500,
    true, true, true⟩

/-- The controller state of the C4 counterexample: two 200px columns
behind a 60px gutter, scrolled 70px right, no session live. -/
def c4State : CtrlState :=
  ⟨0, 70, ⟨60, [200, 200], 460⟩, none, false, none, none, [0, 1], none⟩

/-! ## The selection-transition effect (lines 718–756)

The effect fires when the committed selection ref changes: it always
commits `next` to `lastSelectionRef` first, then starts a transition
exactly when the clamped duration is non-zero and both sides are
non-null; otherwise it clears the transition ref. -/

/-- `Math.max(0, Math.min(1000, selectionTransitionDuration))` (line 723). -/
def clampDuration (d : ℚ) : ℚ := max 0 (min 1000 d)

/-- The selection-transition effect: from the configured duration, the
current transition ref and the previous/next committed selections, the new
committed selection and the transition that runs (`none` = no animation). -/
def selectionEffect (d : ℚ)
    (tr : Option (SelectionRange × SelectionRange))
    (prev next : Option SelectionRange) :
    Option SelectionRange × Option (SelectionRange × SelectionRange) :=
  if prev = next then (next, tr)
  else if clampDuration d = 0 ∨ prev = none ∨ next = none then (next, none)
  else
    match prev, next with
    | some p, some n => (next, some (p, n))
    | _, _ => (next, none)

def c8DragState : CtrlState :=
  { c4State with
    columnDrag := some
      ⟨DragStatus.dragging, 50, 10, 0, 0, 60, some [0, 1], some 0,
        some [1, 0], none⟩ }

/-- Environment for the C7 witness: no scrollbars, resizing off,
draggable columns with an order callback. -/
def c7Env : ControllerEnv :=
  ⟨400, 300, 36, 24, 10, ⟨false, 0, 0⟩, ⟨false, 0, 0⟩, 50, 500,
    false, true, true⟩

/-- State for the C7 witness: two 100px columns behind a 40px gutter, no
scroll, order `[0, 1]`. -/
def c7State : CtrlState :=
  ⟨0, 0, ⟨40, [100, 100], 240⟩, none, false, none, none, [0, 1], none⟩

end DataGrid
namespace DataGrid

/-! ### Properties of the shared column-walk -/

theorem firstColEndAtLeast_lt_length {θ : ℚ} :
    ∀ {acc : ℚ} {cols : List ℚ} {i : ℕ},
      firstColEndAtLeast θ acc cols = some i → i < cols.length := by
  intro acc cols
  induction cols generalizing acc with
  | nil => intro i h; simp [firstColEndAtLeast] at h
  | cons w ws ih =>
    intro i h
    rw [firstColEndAtLeast] at h
    split at h
    · cases h; simp
    · simp only [Option.map_eq_some'] at h
      obtain ⟨j, hj, rfl⟩ := h
      simpa using Nat.succ_lt_succ (ih hj)

/-- A larger threshold is reached no earlier than a smaller one: the start
column never lies beyond the end column found with `scrollLeft + width`. -/
theorem firstColEndAtLeast_mono {θ θ' : ℚ} (hθ : θ ≤ θ') :
    ∀ {acc : ℚ} {cols : List ℚ} {e : ℕ},
      firstColEndAtLeast θ' acc cols = some e →
      ∃ s ≤ e, firstColEndAtLeast θ acc cols = some s := by
  intro acc cols
  induction cols generalizing acc with
  | nil => intro e h; simp [firstColEndAtLeast] at h
  | cons w ws ih =>
    intro e h
    rw [firstColEndAtLeast] at h
    by_cases hc : θ ≤ acc + w
    · exact ⟨0, Nat.zero_le _, by rw [firstColEndAtLeast, if_pos hc]⟩
    · have hc' : ¬ θ' ≤ acc + w := fun hle => hc (le_trans hθ hle)
      rw [if_neg hc'] at h
      simp only [Option.map_eq_some'] at h
      obtain ⟨j, hj, rfl⟩ := h
      obtain ⟨s, hs, hfind⟩ := ih hj
      exact ⟨s + 1, Nat.succ_le_succ hs,
        by rw [firstColEndAtLeast, if_neg hc, hfind, Option.map_some']⟩

theorem visStartRow_nonneg {o : VisibleRangeOptions}
    (h0 : 0 ≤ o.scrollTop) (hq : 0 < o.rowHeight) : 0 ≤ visStartRow o :=
  Int.floor_nonneg.2 (div_nonneg h0 hq.le)

theorem visStartRow_le_totalRows {o : VisibleRangeOptions}
    (hq : 0 < o.rowHeight) (h0 : 0 ≤ o.scrollTop)
    (h1 : o.scrollTop ≤ maxScrollTop o)
    (hR : 0 ≤ o.totalRows)
    (hHH : o.headerHeight ≤ o.canvasRect.height) :
    visStartRow o ≤ o.totalRows := by
  have key : o.scrollTop / o.rowHeight ≤ (o.totalRows : ℚ) := by
    rcases le_or_lt (calculateVirtualScrollHeight o.totalRows o.rowHeight
        o.headerHeight - o.canvasRect.height) 0 with hc | hc
    · have : maxScrollTop o = 0 := by
        unfold maxScrollTop; exact max_eq_left hc
      have hs0 : o.scrollTop = 0 := le_antisymm (this ▸ h1) h0
      rw [hs0, zero_div]
      exact_mod_cast hR
    · have hmax : maxScrollTop o =
          calculateVirtualScrollHeight o.totalRows o.rowHeight o.headerHeight
            - o.canvasRect.height := by
        unfold maxScrollTop; exact max_eq_right hc.le
      have hs : o.scrollTop ≤ (o.totalRows : ℚ) * o.rowHeight := by
        have := hmax ▸ h1
        unfold calculateVirtualScrollHeight at this
        linarith
      calc o.scrollTop / o.rowHeight
          ≤ ((o.totalRows : ℚ) * o.rowHeight) / o.rowHeight := by
            exact (div_le_div_iff_of_pos_right hq).mpr hs
        _ = (o.totalRows : ℚ) := by field_simp
  calc visStartRow o ≤ ⌊(o.totalRows : ℚ)⌋ := Int.floor_le_floor key
    _ = o.totalRows := Int.floor_intCast _

theorem visStartRow_le_visEndRow {o : VisibleRangeOptions}
    (hq : 0 < o.rowHeight) (h0 : 0 ≤ o.scrollTop)
    (h1 : o.scrollTop ≤ maxScrollTop o)
    (hR : 0 ≤ o.totalRows)
    (hHH : o.headerHeight ≤ o.canvasRect.height) :
    visStartRow o ≤ visEndRow o := by
  refine le_min (visStartRow_le_totalRows hq h0 h1 hR hHH) ?_
  have h2 : o.scrollTop / o.rowHeight ≤
      (o.scrollTop + o.canvasRect.height - o.headerHeight) / o.rowHeight := by
    apply (div_le_div_iff_of_pos_right hq).mpr
    linarith
  calc visStartRow o ≤ ⌈o.scrollTop / o.rowHeight⌉ := Int.floor_le_ceil _
    _ ≤ ⌈(o.scrollTop + o.canvasRect.height - o.headerHeight) / o.rowHeight⌉ :=
        Int.ceil_le_ceil h2
    _ ≤ _ := by omega

theorem visStartCol_nonneg (o : VisibleRangeOptions) : 0 ≤ visStartCol o := by
  unfold visStartCol
  split <;> simp

theorem visEndCol0_nonneg {o : VisibleRangeOptions}
    (hC : 0 ≤ o.totalColumns) : 0 ≤ visEndCol0 o := by
  unfold visEndCol0
  split
  · exact le_min hC (by positivity)
  · exact hC

theorem visEndCol0_le_totalColumns {o : VisibleRangeOptions} :
    visEndCol0 o ≤ o.totalColumns := by
  unfold visEndCol0
  split
  · exact min_le_left _ _
  · exact le_rfl

theorem visEndCol_le_totalColumns {o : VisibleRangeOptions} :
    visEndCol o ≤ o.totalColumns := min_le_left _ _

theorem visEndCol0_le_visEndCol {o : VisibleRangeOptions} :
    visEndCol0 o ≤ visEndCol o :=
  le_min visEndCol0_le_totalColumns (le_max_left _ _)

theorem visStartCol_le_visEndCol {o : VisibleRangeOptions}
    (hw : 0 < o.canvasRect.width) (hC : 0 ≤ o.totalColumns) :
    visStartCol o ≤ visEndCol o := by
  unfold visStartCol
  cases hst : firstColEndAtLeast o.scrollLeft o.columnWidths.gutter (effCols o) with
  | none =>
    simp only
    exact le_min hC ((visEndCol0_nonneg hC).trans (le_max_left _ _))
  | some s =>
    simp only
    have hsC : (s : ℤ) + 1 ≤ o.totalColumns := by
      have h1 : s < (effCols o).length := firstColEndAtLeast_lt_length hst
      have h2 : (effCols o).length ≤ o.totalColumns.toNat := by
        unfold effCols
        simp
      omega
    have hend : (s : ℤ) + 1 ≤ visEndCol0 o := by
      unfold visEndCol0
      cases hed : firstColEndAtLeast (o.scrollLeft + o.canvasRect.width)
          o.columnWidths.gutter (effCols o) with
      | none => simpa using hsC
      | some e =>
        simp only
        obtain ⟨s', hs'e, hfind⟩ :=
          firstColEndAtLeast_mono (by linarith : o.scrollLeft ≤
            o.scrollLeft + o.canvasRect.width) hed
        rw [hst] at hfind
        cases hfind
        exact le_min hsC (by omega)
    have := hend.trans visEndCol0_le_visEndCol
    omega

/-! ### Claim C1 -/

/-- Claim C1, counterexample: at `c1Input` all of the claim's stated validity
hypotheses hold, but `calculateVisibleRange` returns
`endRow = -89 < 0 = startRow`, refuting `endRow ≥ startRow ≥ 0`. -/
theorem c1_counterexample :
    ValidRangeInput c1Input ∧
      (calculateVisibleRange c1Input).endRow <
        (calculateVisibleRange c1Input).startRow := by
  constructor
  · unfold ValidRangeInput c1Input maxScrollTop maxScrollLeft
      calculateVirtualScrollHeight
    norm_num
  · have : calculateVisibleRange c1Input =
        { startRow := 0, endRow := -89, startCol := 0, endCol := 1 } := by
      unfold calculateVisibleRange c1Input visStartRow visEndRow visStartCol
        visEndCol visEndCol0 effCols firstColEndAtLeast
      norm_num
      rw [show ((-90:ℚ)) = ((-90:ℤ):ℚ) by norm_num, Int.ceil_intCast]
      decide
    rw [this]
    decide

/-- Claim C1 (amended): under the claim's validity hypotheses *plus*
non-negative `totalRows`/`totalColumns` and a header no taller than the
viewport, `calculateVisibleRange` satisfies
`endRow ≥ startRow ≥ 0` and `endCol ≥ startCol ≥ 0`. -/
theorem c1_range_validity (o : VisibleRangeOptions) (hv : ValidRangeInput o)
    (hR : 0 ≤ o.totalRows) (hC : 0 ≤ o.totalColumns)
    (hHH : o.headerHeight ≤ o.canvasRect.height) :
    0 ≤ (calculateVisibleRange o).startRow ∧
    (calculateVisibleRange o).startRow ≤ (calculateVisibleRange o).endRow ∧
    0 ≤ (calculateVisibleRange o).startCol ∧
    (calculateVisibleRange o).startCol ≤ (calculateVisibleRange o).endCol := by
  obtain ⟨hw, hh, hq, hcols, hst0, hst1, hsl0, hsl1⟩ := hv
  have hrow0 : 0 ≤ visStartRow o := visStartRow_nonneg hst0 hq
  have hrow1 : visStartRow o ≤ visEndRow o :=
    visStartRow_le_visEndRow hq hst0 hst1 hR hHH
  have hcol0 : 0 ≤ visStartCol o := visStartCol_nonneg o
  have hcol1 : visStartCol o ≤ visEndCol o := visStartCol_le_visEndCol hw hC
  have hcol2 : visEndCol o ≤ o.totalColumns := visEndCol_le_totalColumns
  unfold calculateVisibleRange
  rw [if_neg (by push_neg; exact ⟨hw, hh⟩)]
  split
  · dsimp only
    refine ⟨hrow0, hrow1, by omega, by omega⟩
  · exact ⟨hrow0, hrow1, hcol0, hcol1⟩

/-- Claim C1, witness: the amended theorem applied at a concrete valid
input, all hypotheses discharged by evaluation. -/
theorem c1_range_validity_witness :
    0 ≤ (calculateVisibleRange c1WitnessInput).startRow ∧
    (calculateVisibleRange c1WitnessInput).startRow ≤
      (calculateVisibleRange c1WitnessInput).endRow ∧
    0 ≤ (calculateVisibleRange c1WitnessInput).startCol ∧
    (calculateVisibleRange c1WitnessInput).startCol ≤
      (calculateVisibleRange c1WitnessInput).endCol :=
  c1_range_validity c1WitnessInput
    (by
      unfold ValidRangeInput c1WitnessInput maxScrollTop maxScrollLeft
        calculateVirtualScrollHeight
      norm_num)
    (by norm_num [c1WitnessInput]) (by norm_num [c1WitnessInput])
    (by norm_num [c1WitnessInput])


theorem getD_set_self {α : Type} {l : List α} {i : ℕ} {v d : α}
    (h : i < l.length) : (l.set i v).getD i d = v := by
  rw [List.getD_eq_getElem?_getD, List.getElem?_set_self h]
  rfl

theorem getD_set_ne {α : Type} {l : List α} {i j : ℕ} {v d : α}
    (h : i ≠ j) : (l.set i v).getD j d = l.getD j d := by
  rw [List.getD_eq_getElem?_getD, List.getElem?_set_ne h,
    ← List.getD_eq_getElem?_getD]

theorem sum_set_int (l : List ℤ) (i : ℕ) (v : ℤ) (h : i < l.length) :
    (l.set i v).sum = l.sum + v - l.getD i 0 := by
  induction l generalizing i with
  | nil => simp at h
  | cons w t ih =>
    cases i with
    | zero => simp [List.getD_cons_zero]; ring
    | succ j =>
      simp only [List.set_cons_succ, List.sum_cons, List.getD_cons_succ]
      rw [ih j (by simpa using h)]
      ring

theorem cast_list_sum (l : List ℤ) :
    ((l.sum : ℤ) : ℚ) = (l.map (Int.cast : ℤ → ℚ)).sum := by
  induction l with
  | nil => simp
  | cons w t ih =>
    simp only [List.sum_cons, List.map_cons, Int.cast_add, ih]

theorem getD_eq_of_mem_enum {α : Type} {l : List α} {p : ℕ × α} {d : α}
    (h : p ∈ l.enum) : p.1 < l.length ∧ l.getD p.1 d = p.2 := by
  rw [List.mem_enum_iff_getElem?] at h
  have hlt : p.1 < l.length := by
    by_contra hge
    rw [List.getElem?_eq_none (by omega)] at h
    exact Option.noConfusion h
  refine ⟨hlt, ?_⟩
  rw [List.getD_eq_getElem?_getD, h]
  rfl


theorem capacityAdd_set_irrel {ma : ℤ} {order : List Cand} {ints : List ℤ}
    {j : ℕ} {v : ℤ} (h : ∀ c ∈ order, c.i ≠ j) :
    capacityAdd ma order (ints.set j v) = capacityAdd ma order ints := by
  unfold capacityAdd
  induction order with
  | nil => rfl
  | cons d t ih =>
    simp only [List.map_cons, List.sum_cons]
    rw [getD_set_ne (fun he => h d (List.mem_cons_self d t) he.symm),
      ih (fun c hc => h c (List.mem_cons_of_mem d hc))]

theorem capacityAdd_set_incr {ma : ℤ} {order : List Cand} {ints : List ℤ}
    {c : Cand} (hnd : (order.map Cand.i).Nodup) (hc : c ∈ order)
    (hlen : c.i < ints.length) :
    capacityAdd ma order (ints.set c.i (ints.getD c.i 0 + 1)) =
      capacityAdd ma order ints - 1 := by
  induction order with
  | nil => simp at hc
  | cons d t ih =>
    simp only [List.map_cons, List.nodup_cons] at hnd
    rcases List.mem_cons.1 hc with rfl | hct
    · unfold capacityAdd
      simp only [List.map_cons, List.sum_cons]
      rw [getD_set_self hlen,
        show ((t.map (fun e => ma - (ints.set c.i (ints.getD c.i 0 + 1)).getD e.i 0)).sum)
          = (t.map (fun e => ma - ints.getD e.i 0)).sum from ?_]
      · ring
      · have : ∀ e ∈ t, e.i ≠ c.i := by
          intro e het heq
          exact hnd.1 (heq ▸ List.mem_map_of_mem Cand.i het)
        exact capacityAdd_set_irrel this
    · have hdne : d.i ≠ c.i := by
        intro heq
        exact hnd.1 (heq ▸ List.mem_map_of_mem Cand.i hct)
      have hih := ih hnd.2 hct
      unfold capacityAdd at hih ⊢
      simp only [List.map_cons, List.sum_cons]
      rw [getD_set_ne (fun he => hdne he.symm), hih]
      ring


theorem stepAdd_inv {A ma : ℤ} {order : List Cand} {st : DistState} {c : Cand}
    (hnd : (order.map Cand.i).Nodup) (hc : c ∈ order)
    (hinv : InvAdd A ma order st) :
    InvAdd A ma order (stepAdd (ma : ℚ) st c) := by
  obtain ⟨h0, hcap, hsum, hmem⟩ := hinv
  unfold stepAdd
  split
  · rename_i hguard
    obtain ⟨hdpos, hroom⟩ := hguard
    have hlt : st.ints.getD c.i 0 < ma := by exact_mod_cast hroom
    have hlen : c.i < st.ints.length := (hmem c hc).2
    refine ⟨by dsimp only; omega, ?_, ?_, ?_⟩
    · dsimp only
      rw [capacityAdd_set_incr hnd hc hlen]
      omega
    · dsimp only
      rw [sum_set_int _ _ _ hlen]
      omega
    · intro e he
      simp only [List.length_set]
      refine ⟨?_, (hmem e he).2⟩
      by_cases hei : e.i = c.i
      · rw [hei, getD_set_self hlen]
        omega
      · rw [getD_set_ne (fun hh => hei hh.symm)]
        exact (hmem e he).1
  · exact ⟨h0, hcap, hsum, hmem⟩

theorem foldl_stepAdd_inv {A ma : ℤ} {order : List Cand}
    (hnd : (order.map Cand.i).Nodup) :
    ∀ (t : List Cand) (st : DistState), (∀ c ∈ t, c ∈ order) →
      InvAdd A ma order st → InvAdd A ma order (t.foldl (stepAdd (ma : ℚ)) st) := by
  intro t
  induction t with
  | nil => intro st _ h; exact h
  | cons c t ih =>
    intro st hsub h
    exact ih _ (fun e he => hsub e (List.mem_cons_of_mem c he))
      (stepAdd_inv hnd (hsub c (List.mem_cons_self c t)) h)

theorem stepAdd_diff_le {maxW : ℚ} (st : DistState) (c : Cand) :
    (stepAdd maxW st c).diff ≤ st.diff := by
  unfold stepAdd
  split
  · dsimp only; omega
  · exact le_rfl

theorem foldl_stepAdd_diff_le {maxW : ℚ} :
    ∀ (t : List Cand) (st : DistState),
      (t.foldl (stepAdd maxW) st).diff ≤ st.diff := by
  intro t
  induction t with
  | nil => intro st; exact le_rfl
  | cons c t ih =>
    intro st
    exact (ih (stepAdd maxW st c)).trans (stepAdd_diff_le st c)

theorem foldl_stepAdd_progress {maxW : ℚ} :
    ∀ (t : List Cand) (st : DistState), 0 < st.diff →
      (∃ c ∈ t, (st.ints.getD c.i 0 : ℚ) < maxW) →
      (t.foldl (stepAdd maxW) st).diff < st.diff := by
  intro t
  induction t with
  | nil => intro st _ h; simp at h
  | cons c t ih =>
    intro st hd hex
    by_cases hg : 0 < st.diff ∧ ((st.ints.getD c.i 0 : ℚ) < maxW)
    · have hstep : (stepAdd maxW st c).diff = st.diff - 1 := by
        unfold stepAdd; rw [if_pos hg]
      calc (t.foldl (stepAdd maxW) (stepAdd maxW st c)).diff
          ≤ (stepAdd maxW st c).diff := foldl_stepAdd_diff_le t _
        _ < st.diff := by omega
    · have hid : stepAdd maxW st c = st := by
        unfold stepAdd; rw [if_neg hg]
      obtain ⟨e, he, hroom⟩ := hex
      rcases List.mem_cons.1 he with rfl | het
      · exact absurd ⟨hd, hroom⟩ hg
      · simp only [List.foldl_cons, hid]
        exact ih st hd ⟨e, het, hroom⟩

theorem exists_pos_of_sum_pos : ∀ (l : List ℤ), 0 < l.sum → ∃ x ∈ l, 0 < x := by
  intro l
  induction l with
  | nil => intro h; simp at h
  | cons w t ih =>
    intro h
    by_cases hw : 0 < w
    · exact ⟨w, List.mem_cons_self w t, hw⟩
    · rw [List.sum_cons] at h
      obtain ⟨x, hx, hxp⟩ := ih (by omega)
      exact ⟨x, List.mem_cons_of_mem w hx, hxp⟩

theorem invAdd_exists_room {A ma : ℤ} {order : List Cand} {st : DistState}
    (hinv : InvAdd A ma order st) (hd : 0 < st.diff) :
    ∃ c ∈ order, (st.ints.getD c.i 0 : ℚ) < (ma : ℚ) := by
  obtain ⟨_, hcap, _, _⟩ := hinv
  have : 0 < capacityAdd ma order st.ints := by omega
  obtain ⟨x, hx, hxp⟩ := exists_pos_of_sum_pos _ this
  rw [List.mem_map] at hx
  obtain ⟨c, hc, rfl⟩ := hx
  exact ⟨c, hc, by exact_mod_cast (by omega : st.ints.getD c.i 0 < ma)⟩

theorem passAdd_id_of_diff_nonpos {maxW : ℚ} {order : List Cand}
    {st : DistState} (h : st.diff ≤ 0) : passAdd maxW order st = st := by
  unfold passAdd
  induction order with
  | nil => rfl
  | cons c t ih =>
    simp only [List.foldl_cons]
    rw [show stepAdd maxW st c = st from by unfold stepAdd; rw [if_neg]; omega]
    exact ih

theorem passesAdd_reaches_zero {A ma : ℤ} {order : List Cand}
    (hnd : (order.map Cand.i).Nodup) :
    ∀ (fuel : ℕ) (st : DistState), InvAdd A ma order st →
      st.diff.toNat ≤ fuel →
      (passesAdd (ma : ℚ) order fuel st).diff = 0 ∧
      InvAdd A ma order (passesAdd (ma : ℚ) order fuel st) := by
  intro fuel
  induction fuel with
  | zero =>
    intro st hinv hf
    have h0 : 0 ≤ st.diff := hinv.1
    have : st.diff = 0 := by omega
    exact ⟨this, hinv⟩
  | succ n ih =>
    intro st hinv hf
    by_cases hd : st.diff = 0
    · have heq : passesAdd (ma : ℚ) order (n+1) st =
          passesAdd (ma : ℚ) order n (passAdd (ma : ℚ) order st) := rfl
      rw [heq, passAdd_id_of_diff_nonpos (by omega)]
      exact ih st hinv (by omega)
    · have hdpos : 0 < st.diff := by have := hinv.1; omega
      have hinv' : InvAdd A ma order (passAdd (ma : ℚ) order st) :=
        foldl_stepAdd_inv hnd order st (fun c hc => hc) hinv
      have hlt : (passAdd (ma : ℚ) order st).diff < st.diff :=
        foldl_stepAdd_progress order st hdpos (invAdd_exists_room hinv hdpos)
      have h0' : 0 ≤ (passAdd (ma : ℚ) order st).diff := hinv'.1
      exact ih _ hinv' (by omega)


theorem jround_intCast (k : ℤ) : jround ((k : ℤ) : ℚ) = k := by
  unfold jround
  rw [Int.floor_eq_iff]
  refine ⟨le_add_of_nonneg_right (by norm_num), ?_⟩
  linarith

theorem getD_map_floor (l : List ℚ) (i : ℕ) (h : i < l.length) :
    (l.map (fun w => ⌊w⌋)).getD i 0 = ⌊l.getD i 0⌋ := by
  rw [List.getD_eq_getElem?_getD, List.getElem?_map,
    List.getElem?_eq_getElem h, List.getD_eq_getElem?_getD,
    List.getElem?_eq_getElem h]
  rfl

theorem mem_candidates {a : ColumnWidthArgs} {c : Cand}
    (h : c ∈ candidates a) :
    c.i < (clampedFloats a).length ∧
    c.frac = (clampedFloats a).getD c.i 0 - (⌊(clampedFloats a).getD c.i 0⌋ : ℚ) ∧
    c.growRoom = a.maxWidth - (⌊(clampedFloats a).getD c.i 0⌋ : ℚ) := by
  unfold candidates at h
  rw [List.mem_map] at h
  obtain ⟨p, hp, rfl⟩ := h
  obtain ⟨hlt, hval⟩ := getD_eq_of_mem_enum (d := 0) hp
  exact ⟨hlt, by rw [hval], by rw [hval]⟩

theorem mem_orderAdd {a : ColumnWidthArgs} {c : Cand} (h : c ∈ orderAdd a) :
    c ∈ candidates a := by
  unfold orderAdd at h
  rw [List.mem_insertionSort] at h
  exact List.mem_of_mem_filter h

theorem orderAdd_map_nodup (a : ColumnWidthArgs) :
    ((orderAdd a).map Cand.i).Nodup := by
  have hperm : List.Perm (orderAdd a)
      ((candidates a).filter (fun c => decide (0 < c.growRoom))) :=
    List.perm_insertionSort _ _
  rw [(hperm.map Cand.i).nodup_iff]
  have hsub : List.Sublist
      (((candidates a).filter (fun c => decide (0 < c.growRoom))).map Cand.i)
      ((candidates a).map Cand.i) :=
    (List.filter_sublist _).map Cand.i
  apply hsub.nodup
  unfold candidates
  rw [List.map_map]
  have : (Cand.i ∘ fun p : ℕ × ℚ =>
      ({ i := p.1, frac := p.2 - (⌊p.2⌋ : ℚ),
         growRoom := a.maxWidth - (⌊p.2⌋ : ℚ),
         shrinkRoom := (⌊p.2⌋ : ℚ) - a.minWidth } : Cand)) = Prod.fst := rfl
  rw [this, List.enum_map_fst]
  exact List.nodup_range _


theorem sum_floor_le (l : List ℚ) :
    (((l.map (fun w => ⌊w⌋)).sum : ℤ) : ℚ) ≤ l.sum := by
  induction l with
  | nil => simp
  | cons w t ih =>
    simp only [List.map_cons, List.sum_cons, Int.cast_add]
    exact add_le_add (Int.floor_le w) ih

theorem capacityAdd_init (a : ColumnWidthArgs) (ma : ℤ) :
    capacityAdd ma (orderAdd a) (intsInit a) =
      (((clampedFloats a).filter
        (fun w => decide (0 < a.maxWidth - (⌊w⌋ : ℚ)))).map
        (fun w => ma - ⌊w⌋)).sum := by
  unfold capacityAdd
  have hperm : List.Perm (orderAdd a)
      ((candidates a).filter (fun c => decide (0 < c.growRoom))) :=
    List.perm_insertionSort _ _
  rw [(hperm.map _).sum_eq]
  unfold candidates
  rw [List.filter_map, List.map_map]
  have hcongr : ∀ p ∈ (clampedFloats a).enum.filter
      ((fun c : Cand => decide (0 < c.growRoom)) ∘ fun p : ℕ × ℚ =>
        ({ i := p.1, frac := p.2 - (⌊p.2⌋ : ℚ),
           growRoom := a.maxWidth - (⌊p.2⌋ : ℚ),
           shrinkRoom := (⌊p.2⌋ : ℚ) - a.minWidth } : Cand)),
      ((fun c : Cand => ma - (intsInit a).getD c.i 0) ∘ fun p : ℕ × ℚ =>
        ({ i := p.1, frac := p.2 - (⌊p.2⌋ : ℚ),
           growRoom := a.maxWidth - (⌊p.2⌋ : ℚ),
           shrinkRoom := (⌊p.2⌋ : ℚ) - a.minWidth } : Cand)) p
        = (fun p : ℕ × ℚ => ma - ⌊p.2⌋) p := by
    intro p hp
    have hpe : p ∈ (clampedFloats a).enum := List.mem_of_mem_filter hp
    obtain ⟨hlt, hval⟩ := getD_eq_of_mem_enum (d := 0) hpe
    simp only [Function.comp_apply]
    unfold intsInit
    rw [getD_map_floor _ _ hlt, hval]
  rw [List.map_congr_left hcongr]
  have hpred : ((fun c : Cand => decide (0 < c.growRoom)) ∘ fun p : ℕ × ℚ =>
      ({ i := p.1, frac := p.2 - (⌊p.2⌋ : ℚ),
         growRoom := a.maxWidth - (⌊p.2⌋ : ℚ),
         shrinkRoom := (⌊p.2⌋ : ℚ) - a.minWidth } : Cand))
      = ((fun w : ℚ => decide (0 < a.maxWidth - (⌊w⌋ : ℚ))) ∘ Prod.snd) := rfl
  rw [hpred]
  have hmapsnd : ((fun p : ℕ × ℚ => ma - ⌊p.2⌋)) =
      ((fun w : ℚ => ma - ⌊w⌋) ∘ Prod.snd) := rfl
  rw [hmapsnd, ← List.map_map, ← List.filter_map, List.enum_map_snd]

theorem frac_sum_le_capList {ma : ℤ} :
    ∀ (l : List ℚ) (maxW : ℚ), maxW = (ma : ℚ) → (∀ w ∈ l, w ≤ maxW) →
      l.sum - (((l.map (fun w => ⌊w⌋)).sum : ℤ) : ℚ) ≤
        ((((l.filter (fun w => decide (0 < maxW - (⌊w⌋ : ℚ)))).map
          (fun w => ma - ⌊w⌋)).sum : ℤ) : ℚ) := by
  intro l
  induction l with
  | nil => intro maxW _ _; simp
  | cons w t ih =>
    intro maxW hW hbb
    have hwle : w ≤ maxW := hbb w (List.mem_cons_self w t)
    have iht := ih maxW hW (fun x hx => hbb x (List.mem_cons_of_mem w hx))
    by_cases hq : 0 < maxW - (⌊w⌋ : ℚ)
    · rw [List.filter_cons_of_pos (by simpa using hq)]
      simp only [List.map_cons, List.sum_cons]
      push_cast
      push_cast at iht
      have : w - (⌊w⌋ : ℚ) ≤ (ma : ℚ) - (⌊w⌋ : ℚ) := by
        rw [hW] at hwle
        linarith
      linarith
    · rw [List.filter_cons_of_neg (by simpa using hq)]
      simp only [List.map_cons, List.sum_cons]
      have hwf : w - (⌊w⌋ : ℚ) ≤ 0 := by
        push_neg at hq
        rw [hW] at hwle
        linarith
      push_cast
      push_cast at iht
      linarith


theorem stepAdd_mem_bounds {mi ma : ℤ} {st : DistState} {c : Cand}
    (h : ∀ x ∈ st.ints, mi ≤ x ∧ x ≤ ma) :
    ∀ x ∈ (stepAdd (ma : ℚ) st c).ints, mi ≤ x ∧ x ≤ ma := by
  unfold stepAdd
  split
  · rename_i hg
    rcases Nat.lt_or_ge c.i st.ints.length with hlt | hge
    · intro x hx
      rcases List.mem_or_eq_of_mem_set hx with hmem | rfl
      · exact h x hmem
      · have hv : st.ints.getD c.i 0 ∈ st.ints := by
          rw [List.getD_eq_getElem?_getD, List.getElem?_eq_getElem hlt]
          exact List.getElem_mem hlt
        have hb := h _ hv
        have hlt' : st.ints.getD c.i 0 < ma := by exact_mod_cast hg.2
        omega
    · intro x hx
      dsimp only at hx
      rw [List.set_eq_of_length_le hge] at hx
      exact h x hx
  · exact h

theorem stepSub_mem_bounds {mi ma : ℤ} {st : DistState} {c : Cand}
    (h : ∀ x ∈ st.ints, mi ≤ x ∧ x ≤ ma) :
    ∀ x ∈ (stepSub (mi : ℚ) st c).ints, mi ≤ x ∧ x ≤ ma := by
  unfold stepSub
  split
  · rename_i hg
    rcases Nat.lt_or_ge c.i st.ints.length with hlt | hge
    · intro x hx
      rcases List.mem_or_eq_of_mem_set hx with hmem | rfl
      · exact h x hmem
      · have hv : st.ints.getD c.i 0 ∈ st.ints := by
          rw [List.getD_eq_getElem?_getD, List.getElem?_eq_getElem hlt]
          exact List.getElem_mem hlt
        have hb := h _ hv
        have hlt' : mi < st.ints.getD c.i 0 := by exact_mod_cast hg.2
        omega
    · intro x hx
      dsimp only at hx
      rw [List.set_eq_of_length_le hge] at hx
      exact h x hx
  · exact h

theorem passesAdd_mem_bounds {mi ma : ℤ} {order : List Cand} :
    ∀ (fuel : ℕ) (st : DistState), (∀ x ∈ st.ints, mi ≤ x ∧ x ≤ ma) →
      ∀ x ∈ (passesAdd (ma : ℚ) order fuel st).ints, mi ≤ x ∧ x ≤ ma := by
  have hpass : ∀ (t : List Cand) (st : DistState),
      (∀ x ∈ st.ints, mi ≤ x ∧ x ≤ ma) →
      ∀ x ∈ (t.foldl (stepAdd (ma : ℚ)) st).ints, mi ≤ x ∧ x ≤ ma := by
    intro t
    induction t with
    | nil => intro st h; exact h
    | cons c t ih => intro st h; exact ih _ (stepAdd_mem_bounds h)
  intro fuel
  induction fuel with
  | zero => intro st h; exact h
  | succ n ih => intro st h; exact ih _ (hpass order st h)

theorem passesSub_mem_bounds {mi ma : ℤ} {order : List Cand} :
    ∀ (fuel : ℕ) (st : DistState), (∀ x ∈ st.ints, mi ≤ x ∧ x ≤ ma) →
      ∀ x ∈ (passesSub (mi : ℚ) order fuel st).ints, mi ≤ x ∧ x ≤ ma := by
  have hpass : ∀ (t : List Cand) (st : DistState),
      (∀ x ∈ st.ints, mi ≤ x ∧ x ≤ ma) →
      ∀ x ∈ (t.foldl (stepSub (mi : ℚ)) st).ints, mi ≤ x ∧ x ≤ ma := by
    intro t
    induction t with
    | nil => intro st h; exact h
    | cons c t ih => intro st h; exact ih _ (stepSub_mem_bounds h)
  intro fuel
  induction fuel with
  | zero => intro st h; exact h
  | succ n ih => intro st h; exact ih _ (hpass order st h)

theorem intsInit_mem_bounds {a : ColumnWidthArgs} {mi ma : ℤ}
    (hmin : a.minWidth = (mi : ℚ)) (hmax : a.maxWidth = (ma : ℚ))
    (hmm : mi ≤ ma) :
    ∀ x ∈ intsInit a, mi ≤ x ∧ x ≤ ma := by
  intro x hx
  unfold intsInit clampedFloats at hx
  rw [List.map_map, List.mem_map] at hx
  obtain ⟨w, _, rfl⟩ := hx
  simp only [Function.comp_apply]
  have hlow : a.minWidth ≤ max a.minWidth (min a.maxWidth w) := le_max_left _ _
  have hhigh : max a.minWidth (min a.maxWidth w) ≤ a.maxWidth :=
    max_le (by rw [hmin, hmax]; exact_mod_cast hmm) (min_le_left _ _)
  have h1 : ((mi : ℤ) : ℚ) ≤ max a.minWidth (min a.maxWidth w) := by
    rw [← hmin]; exact hlow
  have h2 : max a.minWidth (min a.maxWidth w) ≤ ((ma : ℤ) : ℚ) := by
    rw [← hmax]; exact hhigh
  exact ⟨by simpa using Int.floor_le_floor h1,
    by simpa using Int.floor_le_floor h2⟩

theorem finalState_mem_bounds {a : ColumnWidthArgs} {mi ma : ℤ} {st : DistState}
    (hmin : a.minWidth = (mi : ℚ)) (hmax : a.maxWidth = (ma : ℚ))
    (hmm : mi ≤ ma) (hst : finalState a = some st) :
    ∀ x ∈ st.ints, mi ≤ x ∧ x ≤ ma := by
  have hinit := intsInit_mem_bounds hmin hmax hmm
  unfold finalState at hst
  split_ifs at hst <;> try (cases hst; exact hinit)
  · cases hst
    exact hmax ▸ passesAdd_mem_bounds _ _ hinit
  · cases hst
    exact hmin ▸ passesSub_mem_bounds _ _ hinit


theorem c2_width_conservation (a : ColumnWidthArgs) (mi ma : ℤ)
    (hmin : a.minWidth = (mi : ℚ)) (hmax : a.maxWidth = (ma : ℚ))
    (hmm : mi ≤ ma) (r : ColumnWidthResult)
    (hr : calculateColumnWidths a = some r) :
    r.totalWidth = a.gutterWidth + (r.columnWidths.sum : ℚ) ∧
    (∀ w ∈ r.columnWidths, mi ≤ w ∧ w ≤ ma) ∧
    (∀ A : ℤ, a.fitToCanvas = true → availableWidth a = (A : ℚ) →
      (∀ w ∈ scaledFloats a, a.minWidth ≤ w ∧ w ≤ a.maxWidth) →
      (scaledFloats a).sum = availableWidth a →
      (r.columnWidths.sum : ℤ) = A) := by
  unfold calculateColumnWidths at hr
  by_cases hc0 : a.columnCount = 0
  · rw [if_pos hc0] at hr
    cases hr
    refine ⟨by simp, by simp, ?_⟩
    intro A hfit hA hbnd hsum
    have hbase : baseColumnWidths a = [] := by
      unfold baseColumnWidths
      rw [if_pos (by simp [hc0])]
      simp [hc0]
    have hscaled : scaledFloats a = [] := by
      unfold scaledFloats
      rw [hbase]
      simp
    rw [hscaled] at hsum
    simp only [List.sum_nil] at hsum
    simp only [List.sum_nil]
    have : ((A : ℤ) : ℚ) = 0 := by rw [← hA, ← hsum]
    exact_mod_cast this.symm
  · rw [if_neg hc0, Option.map_eq_some'] at hr
    obtain ⟨st, hst, rfl⟩ := hr
    refine ⟨by dsimp only; ring, finalState_mem_bounds hmin hmax hmm hst, ?_⟩
    intro A hfit hA hbnd hsum
    dsimp only
    -- clamping is the identity under the no-clamp hypothesis
    have hclamp : clampedFloats a = scaledFloats a := by
      unfold clampedFloats
      have hcg : ∀ w ∈ scaledFloats a,
          max a.minWidth (min a.maxWidth w) = (fun x => x) w := by
        intro w hw
        rw [min_eq_right (hbnd w hw).2, max_eq_right (hbnd w hw).1]
      rw [List.map_congr_left hcg, List.map_id']
    have hints : intsInit a = (scaledFloats a).map (fun w => ⌊w⌋) := by
      unfold intsInit
      rw [hclamp]
    have hSle : (((intsInit a).sum : ℤ) : ℚ) ≤ (A : ℚ) := by
      rw [hints, ← hA, ← hsum]
      exact sum_floor_le _
    have hdiff : initialDiff a = A - (intsInit a).sum := by
      unfold initialDiff
      rw [if_pos hfit, hA]
      have hcast : (A : ℚ) - (((intsInit a).sum : ℤ) : ℚ) =
          ((A - (intsInit a).sum : ℤ) : ℚ) := by push_cast; ring
      rw [hcast, jround_intCast]
    have hd0 : 0 ≤ A - (intsInit a).sum := by
      have := hSle
      have h2 : (intsInit a).sum ≤ A := by exact_mod_cast this
      omega
    have hcap : A - (intsInit a).sum ≤
        capacityAdd ma (orderAdd a) (intsInit a) := by
      rw [capacityAdd_init a ma, hclamp]
      have hfr := frac_sum_le_capList (scaledFloats a) a.maxWidth hmax
        (fun w hw => (hbnd w hw).2)
      have hlhs : ((A - (intsInit a).sum : ℤ) : ℚ) =
          (scaledFloats a).sum - (((scaledFloats a).map (fun w => ⌊w⌋)).sum : ℚ) := by
        rw [← hints]
        have hAq : (A : ℚ) = (scaledFloats a).sum := by
          rw [← hA]
          exact hsum.symm
        push_cast
        rw [hAq]
      have hq : ((A - (intsInit a).sum : ℤ) : ℚ) ≤
          (((((scaledFloats a).filter
            (fun w => decide (0 < a.maxWidth - (⌊w⌋ : ℚ)))).map
            (fun w => ma - ⌊w⌋)).sum : ℤ) : ℚ) := by
        rw [hlhs]
        exact hfr
      exact_mod_cast hq
    have hlenl : (intsInit a).length = (scaledFloats a).length := by
      rw [hints, List.length_map]
    have hmem : ∀ c ∈ orderAdd a,
        (intsInit a).getD c.i 0 ≤ ma ∧ c.i < (intsInit a).length := by
      intro c hc
      have hcand := mem_candidates (mem_orderAdd hc)
      have hci : c.i < (scaledFloats a).length := by
        rw [← hclamp]
        exact hcand.1
      constructor
      · have hgd : (intsInit a).getD c.i 0 = ⌊(scaledFloats a).getD c.i 0⌋ := by
          rw [hints]
          exact getD_map_floor _ _ hci
        rw [hgd]
        have hmem2 : (scaledFloats a).getD c.i 0 ∈ scaledFloats a := by
          rw [List.getD_eq_getElem?_getD, List.getElem?_eq_getElem hci]
          exact List.getElem_mem hci
        have hle := (hbnd _ hmem2).2
        rw [hmax] at hle
        have := Int.floor_le_floor hle
        simpa using this
      · rw [hlenl]
        exact hci
    have hinv0 : InvAdd A ma (orderAdd a)
        ⟨intsInit a, A - (intsInit a).sum⟩ := by
      refine ⟨hd0, hcap, by dsimp only; ring, hmem⟩
    unfold finalState at hst
    rw [hdiff] at hst
    by_cases hz : A - (intsInit a).sum = 0
    · rw [if_pos hz] at hst
      cases hst
      dsimp only
      omega
    · rw [if_neg hz, if_pos (by omega)] at hst
      by_cases hne : (orderAdd a).isEmpty
      · exfalso
        have hoe : orderAdd a = [] := List.isEmpty_iff.mp hne
        rw [hoe] at hcap
        unfold capacityAdd at hcap
        simp only [List.map_nil, List.sum_nil] at hcap
        omega
      · rw [if_neg hne] at hst
        obtain ⟨hz0, hinvF⟩ := passesAdd_reaches_zero (orderAdd_map_nodup a)
          (A - (intsInit a).sum).toNat ⟨intsInit a, A - (intsInit a).sum⟩
          hinv0 le_rfl
        rw [hmax, if_pos hz0] at hst
        cases hst
        have hfin := hinvF.2.2.1
        omega


/-! ### Claim C2: counterexample and witness -/

theorem c2_orderSub_eval : orderSub c2Input = [] := by
  unfold orderSub candidates clampedFloats scaledFloats baseColumnWidths
    c2Input jsOrQ availableWidth
  norm_num [List.replicate, List.enum, List.enumFrom, List.insertionSort,
    List.filter]

theorem c2_ints_eval : intsInit c2Input = [60, 60] := by
  unfold intsInit clampedFloats scaledFloats baseColumnWidths c2Input jsOrQ
    availableWidth
  norm_num [List.replicate]

theorem c2_diff_eval : initialDiff c2Input = -60 := by
  unfold initialDiff jround intsInit clampedFloats scaledFloats
    baseColumnWidths c2Input jsOrQ availableWidth
  norm_num

/-- Claim C2, counterexample: at `c2Input` (`fitToCanvas = true`) the
function returns widths `[60, 60]` whose sum `120` differs from
`canvasWidth - gutterWidth = 60`: the fit-exactness part of the claim is
false when clamping binds. -/
theorem c2_counterexample :
    calculateColumnWidths c2Input = some ⟨[60, 60], 160, 60⟩ ∧
    c2Input.fitToCanvas = true ∧
    ¬ ((([60, 60] : List ℤ).sum : ℚ) =
        c2Input.canvasWidth - c2Input.gutterWidth) := by
  refine ⟨?_, rfl, by norm_num [c2Input]⟩
  unfold calculateColumnWidths finalState
  rw [c2_ints_eval, c2_diff_eval, c2_orderSub_eval]
  norm_num [availableWidth, c2Input]

theorem c2_witness_eval :
    calculateColumnWidths c2WitnessInput = some c2WitnessResult := by
  have hints : intsInit c2WitnessInput = [112, 112, 112, 112, 112] := by
    unfold intsInit clampedFloats scaledFloats baseColumnWidths
      c2WitnessInput jsOrQ availableWidth
    norm_num
  have hdiff : initialDiff c2WitnessInput = 0 := by
    unfold initialDiff jround intsInit clampedFloats scaledFloats
      baseColumnWidths c2WitnessInput jsOrQ availableWidth
    norm_num
  unfold calculateColumnWidths finalState
  rw [hints, hdiff]
  norm_num [availableWidth, c2WitnessInput, c2WitnessResult]

theorem c2_scaled_eval :
    scaledFloats c2WitnessInput = [112, 112, 112, 112, 112] := by
  unfold scaledFloats baseColumnWidths c2WitnessInput jsOrQ availableWidth
  norm_num

/-- Claim C2, witness: the amended conservation theorem applied at scenario
B's input, every hypothesis (including the fit-exactness side conditions)
discharged by evaluation. -/
theorem c2_width_conservation_witness :
    c2WitnessResult.totalWidth =
      c2WitnessInput.gutterWidth + (c2WitnessResult.columnWidths.sum : ℚ) ∧
    (∀ w ∈ c2WitnessResult.columnWidths, (60 : ℤ) ≤ w ∧ w ≤ 400) ∧
    (c2WitnessResult.columnWidths.sum : ℤ) = 560 := by
  have h := c2_width_conservation c2WitnessInput 60 400
    (by norm_num [c2WitnessInput]) (by norm_num [c2WitnessInput])
    (by norm_num) c2WitnessResult c2_witness_eval
  refine ⟨h.1, h.2.1, ?_⟩
  refine h.2.2 560 rfl (by norm_num [c2WitnessInput, availableWidth]) ?_ ?_
  · rw [c2_scaled_eval]
    intro w hw
    simp only [List.mem_cons, List.not_mem_nil, or_false] at hw
    rcases hw with rfl | rfl | rfl | rfl | rfl <;>
      norm_num [c2WitnessInput]
  · rw [c2_scaled_eval]
    norm_num [c2WitnessInput, availableWidth]

/-! ### Claim C10: divergence of the distribution loop -/

theorem c10_ints_eval : intsInit c10Input = [10, 5] := by
  unfold intsInit clampedFloats scaledFloats baseColumnWidths c10Input jsOrQ
    availableWidth
  norm_num

theorem c10_diff_eval : initialDiff c10Input = 20 := by
  unfold initialDiff jround intsInit clampedFloats scaledFloats
    baseColumnWidths c10Input jsOrQ availableWidth
  norm_num

theorem c10_order_eval : orderAdd c10Input = [⟨1, 0, 5, 4⟩] := by
  unfold orderAdd candidates clampedFloats scaledFloats baseColumnWidths
    c10Input jsOrQ availableWidth
  norm_num [List.enum, List.enumFrom, List.insertionSort, List.filter,
    List.orderedInsert]

theorem c10_pass_inv (st : DistState)
    (h1 : st.ints.length = 2) (h2 : st.ints.getD 1 0 + st.diff = 25)
    (h3 : st.ints.getD 1 0 ≤ 10) :
    (passAdd c10Input.maxWidth (orderAdd c10Input) st).ints.length = 2 ∧
    (passAdd c10Input.maxWidth (orderAdd c10Input) st).ints.getD 1 0 +
      (passAdd c10Input.maxWidth (orderAdd c10Input) st).diff = 25 ∧
    (passAdd c10Input.maxWidth (orderAdd c10Input) st).ints.getD 1 0 ≤ 10 := by
  rw [c10_order_eval]
  unfold passAdd
  simp only [List.foldl]
  unfold stepAdd
  dsimp only
  split
  · rename_i hguard
    have hx : st.ints.getD 1 0 < 10 := by
      have := hguard.2
      have h10 : c10Input.maxWidth = (10 : ℚ) := by norm_num [c10Input]
      rw [h10] at this
      exact_mod_cast this
    refine ⟨by simpa using h1, ?_, ?_⟩
    · rw [getD_set_self (by omega)]
      simp only
      omega
    · rw [getD_set_self (by omega)]
      omega
  · exact ⟨h1, h2, h3⟩

theorem c10_passes_inv : ∀ (n : ℕ) (st : DistState),
    st.ints.length = 2 → st.ints.getD 1 0 + st.diff = 25 →
    st.ints.getD 1 0 ≤ 10 →
    (passesAdd c10Input.maxWidth (orderAdd c10Input) n st).ints.length = 2 ∧
    (passesAdd c10Input.maxWidth (orderAdd c10Input) n st).ints.getD 1 0 +
      (passesAdd c10Input.maxWidth (orderAdd c10Input) n st).diff = 25 ∧
    (passesAdd c10Input.maxWidth (orderAdd c10Input) n st).ints.getD 1 0 ≤ 10 := by
  intro n
  induction n with
  | zero => intro st h1 h2 h3; exact ⟨h1, h2, h3⟩
  | succ n ih =>
    intro st h1 h2 h3
    obtain ⟨g1, g2, g3⟩ := c10_pass_inv st h1 h2 h3
    exact ih _ g1 g2 g3

theorem c10_diverges : ∀ n : ℕ,
    0 < (passesAdd c10Input.maxWidth (orderAdd c10Input) n
        ⟨intsInit c10Input, initialDiff c10Input⟩).diff := by
  intro n
  have h1 : (intsInit c10Input).length = 2 := by rw [c10_ints_eval]; rfl
  have h2 : (intsInit c10Input).getD 1 0 + initialDiff c10Input = 25 := by
    rw [c10_ints_eval, c10_diff_eval]; rfl
  have h3 : (intsInit c10Input).getD 1 0 ≤ 10 := by rw [c10_ints_eval]; norm_num
  obtain ⟨g1, g2, g3⟩ := c10_passes_inv n ⟨intsInit c10Input, initialDiff c10Input⟩ h1 h2 h3
  omega

theorem c10_none : calculateColumnWidths c10Input = none := by
  have hd := c10_diverges (Int.toNat 20)
  rw [c10_diff_eval] at hd
  unfold calculateColumnWidths finalState
  rw [c10_diff_eval]
  rw [if_neg (show ¬ c10Input.columnCount = 0 by norm_num [c10Input]),
    if_neg (show ¬ (20:ℤ) = 0 by norm_num),
    if_pos (show (0:ℤ) < 20 by norm_num),
    if_neg (show ¬ (orderAdd c10Input).isEmpty = true by
      rw [c10_order_eval]; simp),
    if_neg (by omega)]
  rfl

/-- Claim C10: the claim (that `calculateColumnWidths` terminates for every
input) is the intent, but the code is wrong: at `c10Input` the
residual-distribution loop spins forever — after any number of sweeps the
residual `diff` is still positive, so the `while (diff > 0 && ...)`
condition never becomes false and the embedding returns `none`. -/
theorem c10_loop_divergence :
    calculateColumnWidths c10Input = none ∧
    ∀ n : ℕ, 0 < (passesAdd c10Input.maxWidth (orderAdd c10Input) n
        ⟨intsInit c10Input, initialDiff c10Input⟩).diff :=
  ⟨c10_none, c10_diverges⟩

theorem mapGet_mapSet_self (m : List (ℤ × DataPage)) (k : ℤ) (v : DataPage) :
    mapGet (mapSet m k v) k = some v := by
  induction m with
  | nil => simp [mapGet, mapSet]
  | cons e t ih =>
    obtain ⟨k', v'⟩ := e
    by_cases h : k' = k
    · subst h
      simp [mapGet, mapSet]
    · rw [mapSet, if_neg h, mapGet, if_neg h]
      exact ih

theorem mapGet_mapSet_ne (m : List (ℤ × DataPage)) {k k' : ℤ} (v : DataPage)
    (h : k' ≠ k) : mapGet (mapSet m k v) k' = mapGet m k' := by
  induction m with
  | nil => simp [mapGet, mapSet, Ne.symm h]
  | cons e t ih =>
    obtain ⟨k0, v0⟩ := e
    by_cases h0 : k0 = k
    · subst h0
      rw [mapSet, if_pos rfl, mapGet, if_neg (fun he => h he.symm), mapGet,
        if_neg (fun he => h he.symm)]
    · rw [mapSet, if_neg h0, mapGet, mapGet]
      split
      · rfl
      · exact ih

theorem mem_setAdd {s : List ℤ} {k x : ℤ} :
    x ∈ setAdd s k ↔ x ∈ s ∨ x = k := by
  unfold setAdd
  split
  · rename_i hk
    constructor
    · exact Or.inl
    · rintro (h | rfl)
      · exact h
      · exact hk
  · simp

theorem mapSet_keys_nodup {m : List (ℤ × DataPage)} {k : ℤ} {v : DataPage}
    (h : (m.map Prod.fst).Nodup) : ((mapSet m k v).map Prod.fst).Nodup := by
  induction m with
  | nil => simp [mapSet]
  | cons e t ih =>
    obtain ⟨k0, v0⟩ := e
    simp only [List.map_cons, List.nodup_cons] at h
    by_cases h0 : k0 = k
    · subst h0
      rw [mapSet, if_pos rfl]
      simp only [List.map_cons, List.nodup_cons]
      exact h
    · rw [mapSet, if_neg h0]
      simp only [List.map_cons, List.nodup_cons]
      refine ⟨?_, ih h.2⟩
      intro hmem
      -- k0 is among the keys of mapSet t k v: those are keys of t plus k
      have : ∀ x, x ∈ (mapSet t k v).map Prod.fst → x ∈ t.map Prod.fst ∨ x = k := by
        clear hmem ih h
        intro x hx
        induction t with
        | nil => simpa [mapSet] using hx
        | cons e2 t2 ih2 =>
          obtain ⟨k2, v2⟩ := e2
          by_cases h2 : k2 = k
          · subst h2
            rw [mapSet, if_pos rfl] at hx
            simp only [List.map_cons, List.mem_cons] at hx ⊢
            tauto
          · rw [mapSet, if_neg h2] at hx
            simp only [List.map_cons, List.mem_cons] at hx ⊢
            rcases hx with rfl | hx
            · tauto
            · rcases ih2 hx with h3 | h3 <;> tauto
      rcases this k0 hmem with h3 | h3
      · exact h.1 h3
      · exact h0 h3

theorem mapGet_mem {m : List (ℤ × DataPage)} {k : ℤ} {v : DataPage}
    (h : mapGet m k = some v) : (k, v) ∈ m := by
  induction m with
  | nil => simp [mapGet] at h
  | cons e t ih =>
    obtain ⟨k0, v0⟩ := e
    rw [mapGet] at h
    split at h
    · rename_i h0
      cases h
      subst h0
      exact List.mem_cons_self _ _
    · exact List.mem_cons_of_mem _ (ih h)

theorem mem_mapSet {m : List (ℤ × DataPage)} {k : ℤ} {v : DataPage}
    {e : ℤ × DataPage} (h : e ∈ mapSet m k v) : e ∈ m ∨ e = (k, v) := by
  induction m with
  | nil => simpa [mapSet] using h
  | cons e0 t ih =>
    obtain ⟨k0, v0⟩ := e0
    by_cases h0 : k0 = k
    · subst h0
      rw [mapSet, if_pos rfl] at h
      simp only [List.mem_cons] at h ⊢
      tauto
    · rw [mapSet, if_neg h0] at h
      simp only [List.mem_cons] at h ⊢
      rcases h with rfl | h
      · tauto
      · rcases ih h with h2 | h2 <;> tauto

theorem intRange_mem {a b q : ℤ} : q ∈ intRange a b ↔ a ≤ q ∧ q ≤ b := by
  simp only [intRange, List.mem_map, List.mem_range]
  constructor
  · rintro ⟨i, hi, rfl⟩
    omega
  · rintro ⟨h1, h2⟩
    exact ⟨(q - a).toNat, by omega, by omega⟩

theorem loadPageStart_count_ne {cfg : VDMConfig} {now : ℤ} {st : VDMState}
    {q p : ℤ} (h : q ≠ p) :
    (loadPageStart cfg now st q).started.count p = st.started.count p := by
  unfold loadPageStart
  split
  · rfl
  · simp only [List.count_append]
    have : List.count p [q] = 0 := List.count_eq_zero.2 (by simp [Ne.symm h])
    omega

theorem loadPageStart_loading_mono {cfg : VDMConfig} {now : ℤ} {st : VDMState}
    {q x : ℤ} (h : x ∈ st.loading) :
    x ∈ (loadPageStart cfg now st q).loading := by
  unfold loadPageStart
  split
  · exact h
  · exact mem_setAdd.2 (Or.inl h)

theorem loadPageStart_loading_iff_ne {cfg : VDMConfig} {now : ℤ}
    {st : VDMState} {q x : ℤ} (h : q ≠ x) :
    (x ∈ (loadPageStart cfg now st q).loading ↔ x ∈ st.loading) := by
  unfold loadPageStart
  split
  · exact Iff.rfl
  · rw [mem_setAdd]
    constructor
    · rintro (hx | rfl)
      · exact hx
      · exact absurd rfl h
    · exact Or.inl

theorem loadPageStart_hasPage_ne {cfg : VDMConfig} {now : ℤ} {st : VDMState}
    {q x : ℤ} (h : x ≠ q) :
    hasPage (loadPageStart cfg now st q) x = hasPage st x := by
  unfold loadPageStart
  split
  · rfl
  · unfold hasPage
    dsimp only
    rw [mapGet_mapSet_ne _ _ h]

theorem loadPageStart_allLoading {cfg : VDMConfig} {now : ℤ} {st : VDMState}
    {q : ℤ} (h : ∀ e ∈ st.pages, e.2.isLoading = true) :
    ∀ e ∈ (loadPageStart cfg now st q).pages, e.2.isLoading = true := by
  unfold loadPageStart
  split
  · exact h
  · intro e he
    rcases mem_mapSet he with h2 | rfl
    · exact h e h2
    · rfl

theorem loadPageStart_inv_ne {cfg : VDMConfig} {now : ℤ} {st : VDMState}
    {q p : ℤ} (h : q ≠ p) (hi : EnsureInv p st) :
    EnsureInv p (loadPageStart cfg now st q) := by
  obtain ⟨h1, h2, h3⟩ := hi
  refine ⟨?_, ?_, loadPageStart_allLoading h3⟩
  · intro hp
    rw [loadPageStart_count_ne h]
    exact h1 ((loadPageStart_loading_iff_ne h).1 hp)
  · intro hp
    rw [loadPageStart_count_ne h]
    exact h2 (fun hm => hp ((loadPageStart_loading_iff_ne h).2 hm))

theorem loadPageStart_inv_self {cfg : VDMConfig} {now : ℤ} {st : VDMState}
    {p : ℤ} (hp : p ∉ st.loading) (hi : EnsureInv p st) :
    EnsureInv p (loadPageStart cfg now st p) := by
  obtain ⟨h1, h2, h3⟩ := hi
  unfold loadPageStart
  split
  · exact ⟨h1, h2, h3⟩
  · refine ⟨?_, ?_, ?_⟩
    · intro _
      show (st.started ++ [p]).count p = 1
      rw [List.count_append, h2 hp]
      simp
    · intro hnp
      exact absurd (mem_setAdd.2 (Or.inr rfl)) hnp
    · intro e he
      rcases mem_mapSet he with h4 | rfl
      · exact h3 e h4
      · rfl

theorem guardedLoad_inv {cfg : VDMConfig} {now : ℤ} {s : VDMState} {q p : ℤ}
    (h : EnsureInv p s) : EnsureInv p (guardedLoad cfg now s q) := by
  unfold guardedLoad
  split
  · rename_i hg
    by_cases hq : q = p
    · subst hq
      exact loadPageStart_inv_self hg.2 h
    · exact loadPageStart_inv_ne hq h
  · exact h

theorem guardedPrefetchLoad_inv {cfg : VDMConfig} {now : ℤ} {s : VDMState}
    {q p : ℤ} (h : EnsureInv p s) :
    EnsureInv p (guardedPrefetchLoad cfg now s q) := by
  unfold guardedPrefetchLoad
  split
  · rename_i hg
    by_cases hq : q = p
    · subst hq
      exact loadPageStart_inv_self hg.2.2.2 h
    · exact loadPageStart_inv_ne hq h
  · exact h

theorem guardedLoad_loading_mono {cfg : VDMConfig} {now : ℤ} {s : VDMState}
    {q x : ℤ} (h : x ∈ s.loading) :
    x ∈ (guardedLoad cfg now s q).loading := by
  unfold guardedLoad
  split
  · exact loadPageStart_loading_mono h
  · exact h

theorem guardedPrefetchLoad_loading_mono {cfg : VDMConfig} {now : ℤ}
    {s : VDMState} {q x : ℤ} (h : x ∈ s.loading) :
    x ∈ (guardedPrefetchLoad cfg now s q).loading := by
  unfold guardedPrefetchLoad
  split
  · exact loadPageStart_loading_mono h
  · exact h

theorem guardedLoad_allLoading {cfg : VDMConfig} {now : ℤ} {s : VDMState}
    {q : ℤ} (h : ∀ e ∈ s.pages, e.2.isLoading = true) :
    ∀ e ∈ (guardedLoad cfg now s q).pages, e.2.isLoading = true := by
  unfold guardedLoad
  split
  · exact loadPageStart_allLoading h
  · exact h

theorem foldl_guardedLoad_inv {cfg : VDMConfig} {now : ℤ} {p : ℤ} :
    ∀ (l : List ℤ) (s : VDMState), EnsureInv p s →
    EnsureInv p (l.foldl (guardedLoad cfg now) s) := by
  intro l
  induction l with
  | nil => exact fun s h => h
  | cons q t ih =>
    intro s h
    rw [List.foldl_cons]
    exact ih _ (guardedLoad_inv h)

theorem foldl_guardedPrefetchLoad_inv {cfg : VDMConfig} {now : ℤ} {p : ℤ} :
    ∀ (l : List ℤ) (s : VDMState), EnsureInv p s →
    EnsureInv p (l.foldl (guardedPrefetchLoad cfg now) s) := by
  intro l
  induction l with
  | nil => exact fun s h => h
  | cons q t ih =>
    intro s h
    rw [List.foldl_cons]
    exact ih _ (guardedPrefetchLoad_inv h)

theorem foldl_guardedLoad_loading_mono {cfg : VDMConfig} {now : ℤ} {x : ℤ} :
    ∀ (l : List ℤ) (s : VDMState), x ∈ s.loading →
    x ∈ (l.foldl (guardedLoad cfg now) s).loading := by
  intro l
  induction l with
  | nil => exact fun s h => h
  | cons q t ih =>
    intro s h
    rw [List.foldl_cons]
    exact ih _ (guardedLoad_loading_mono h)

theorem foldl_guardedPrefetchLoad_loading_mono {cfg : VDMConfig} {now : ℤ}
    {x : ℤ} : ∀ (l : List ℤ) (s : VDMState), x ∈ s.loading →
    x ∈ (l.foldl (guardedPrefetchLoad cfg now) s).loading := by
  intro l
  induction l with
  | nil => exact fun s h => h
  | cons q t ih =>
    intro s h
    rw [List.foldl_cons]
    exact ih _ (guardedPrefetchLoad_loading_mono h)

theorem ensureDataLoaded_inv {cfg : VDMConfig} {now : ℤ} {st : VDMState}
    {r : VisibleRange} {p : ℤ} (h : EnsureInv p st) :
    EnsureInv p (ensureDataLoaded cfg now st r) := by
  simp only [ensureDataLoaded]
  split
  · exact foldl_guardedPrefetchLoad_inv _ _ (foldl_guardedLoad_inv _ _ h)
  · exact foldl_guardedLoad_inv _ _ h

theorem ensureDataLoaded_loading_mono {cfg : VDMConfig} {now : ℤ}
    {st : VDMState} {r : VisibleRange} {p : ℤ} (h : p ∈ st.loading) :
    p ∈ (ensureDataLoaded cfg now st r).loading := by
  simp only [ensureDataLoaded]
  split
  · exact foldl_guardedPrefetchLoad_loading_mono _ _
      (foldl_guardedLoad_loading_mono _ _ h)
  · exact foldl_guardedLoad_loading_mono _ _ h

theorem foldl_guardedLoad_reaches {cfg : VDMConfig} {now : ℤ} {p : ℤ}
    (hlim : 0 < min cfg.pageSize (cfg.rowCount - p * cfg.pageSize)) :
    ∀ (l : List ℤ) (s : VDMState), p ∈ l →
    (∀ e ∈ s.pages, e.2.isLoading = true) →
    p ∈ (l.foldl (guardedLoad cfg now) s).loading := by
  intro l
  induction l with
  | nil =>
    intro s h
    exact absurd h (List.not_mem_nil p)
  | cons q t ih =>
    intro s hmem hall
    rw [List.foldl_cons]
    rcases List.mem_cons.1 hmem with rfl | hmem2
    · have hstep : p ∈ (guardedLoad cfg now s p).loading := by
        unfold guardedLoad
        split
        · unfold loadPageStart
          rw [if_neg (not_le.2 hlim)]
          exact mem_setAdd.2 (Or.inr rfl)
        · rename_i hg
          by_cases hpl : p ∈ s.loading
          · exact hpl
          · exfalso
            apply hg
            refine ⟨?_, hpl⟩
            intro hh
            unfold hasPage at hh
            cases hmg : mapGet s.pages p with
            | none => rw [hmg] at hh; cases hh
            | some pg =>
              rw [hmg] at hh
              have hl := hall (p, pg) (mapGet_mem hmg)
              simp only at hl
              simp [hl] at hh
      exact foldl_guardedLoad_loading_mono t _ hstep
    · exact ih (guardedLoad cfg now s q) hmem2 (guardedLoad_allLoading hall)

theorem ensureDataLoaded_covers {cfg : VDMConfig} {now : ℤ} {st : VDMState}
    {r : VisibleRange} {p : ℤ}
    (hlim : 0 < min cfg.pageSize (cfg.rowCount - p * cfg.pageSize))
    (hcov : covers cfg r p)
    (hall : ∀ e ∈ st.pages, e.2.isLoading = true) :
    p ∈ (ensureDataLoaded cfg now st r).loading := by
  have hmem : p ∈ intRange (pageOfStart cfg r) (pageOfEnd cfg r) :=
    intRange_mem.2 hcov
  simp only [ensureDataLoaded]
  split
  · exact foldl_guardedPrefetchLoad_loading_mono _ _
      (foldl_guardedLoad_reaches hlim _ _ hmem hall)
  · exact foldl_guardedLoad_reaches hlim _ _ hmem hall

theorem guardedLoad_count_frozen {cfg : VDMConfig} {now : ℤ} {s : VDMState}
    {q p : ℤ} (h : p ∈ s.loading ∨ hasPage s p = true) :
    (guardedLoad cfg now s q).started.count p = s.started.count p ∧
    (p ∈ (guardedLoad cfg now s q).loading ∨
      hasPage (guardedLoad cfg now s q) p = true) := by
  by_cases hq : q = p
  · subst hq
    unfold guardedLoad
    split
    · rename_i hg
      exfalso
      rcases h with h | h
      · exact hg.2 h
      · exact hg.1 h
    · exact ⟨rfl, h⟩
  · unfold guardedLoad
    split
    · refine ⟨loadPageStart_count_ne hq, ?_⟩
      rcases h with h | h
      · exact Or.inl (loadPageStart_loading_mono h)
      · refine Or.inr ?_
        rw [loadPageStart_hasPage_ne (Ne.symm hq)]
        exact h
    · exact ⟨rfl, h⟩

theorem guardedPrefetchLoad_count_frozen {cfg : VDMConfig} {now : ℤ}
    {s : VDMState} {q p : ℤ} (h : p ∈ s.loading ∨ hasPage s p = true) :
    (guardedPrefetchLoad cfg now s q).started.count p = s.started.count p ∧
    (p ∈ (guardedPrefetchLoad cfg now s q).loading ∨
      hasPage (guardedPrefetchLoad cfg now s q) p = true) := by
  by_cases hq : q = p
  · subst hq
    unfold guardedPrefetchLoad
    split
    · rename_i hg
      exfalso
      rcases h with h | h
      · exact hg.2.2.2 h
      · exact hg.2.2.1 h
    · exact ⟨rfl, h⟩
  · unfold guardedPrefetchLoad
    split
    · refine ⟨loadPageStart_count_ne hq, ?_⟩
      rcases h with h | h
      · exact Or.inl (loadPageStart_loading_mono h)
      · refine Or.inr ?_
        rw [loadPageStart_hasPage_ne (Ne.symm hq)]
        exact h
    · exact ⟨rfl, h⟩

theorem foldl_guardedLoad_count_frozen {cfg : VDMConfig} {now : ℤ} {p : ℤ} :
    ∀ (l : List ℤ) (s : VDMState),
    (p ∈ s.loading ∨ hasPage s p = true) →
    (l.foldl (guardedLoad cfg now) s).started.count p = s.started.count p ∧
    (p ∈ (l.foldl (guardedLoad cfg now) s).loading ∨
      hasPage (l.foldl (guardedLoad cfg now) s) p = true) := by
  intro l
  induction l with
  | nil => exact fun s h => ⟨rfl, h⟩
  | cons q t ih =>
    intro s h
    rw [List.foldl_cons]
    obtain ⟨hc, hs⟩ := @guardedLoad_count_frozen cfg now s q p h
    obtain ⟨hc2, hs2⟩ := ih _ hs
    exact ⟨hc2.trans hc, hs2⟩

theorem foldl_guardedPrefetchLoad_count_frozen {cfg : VDMConfig} {now : ℤ}
    {p : ℤ} : ∀ (l : List ℤ) (s : VDMState),
    (p ∈ s.loading ∨ hasPage s p = true) →
    (l.foldl (guardedPrefetchLoad cfg now) s).started.count p =
      s.started.count p ∧
    (p ∈ (l.foldl (guardedPrefetchLoad cfg now) s).loading ∨
      hasPage (l.foldl (guardedPrefetchLoad cfg now) s) p = true) := by
  intro l
  induction l with
  | nil => exact fun s h => ⟨rfl, h⟩
  | cons q t ih =>
    intro s h
    rw [List.foldl_cons]
    obtain ⟨hc, hs⟩ := @guardedPrefetchLoad_count_frozen cfg now s q p h
    obtain ⟨hc2, hs2⟩ := ih _ hs
    exact ⟨hc2.trans hc, hs2⟩

theorem ensureDataLoaded_count_frozen {cfg : VDMConfig} {now : ℤ}
    {st : VDMState} {r : VisibleRange} {p : ℤ}
    (h : p ∈ st.loading ∨ hasPage st p = true) :
    (ensureDataLoaded cfg now st r).started.count p = st.started.count p := by
  simp only [ensureDataLoaded]
  split
  · obtain ⟨hc, hs⟩ := @foldl_guardedLoad_count_frozen cfg now p
      (intRange (pageOfStart cfg r) (pageOfEnd cfg r)) st h
    obtain ⟨hc2, _⟩ := @foldl_guardedPrefetchLoad_count_frozen cfg now p
      [pageOfStart cfg r - 1, pageOfEnd cfg r + 1] _ hs
    exact hc2.trans hc
  · exact (@foldl_guardedLoad_count_frozen cfg now p _ st h).1

theorem ensure_run_keeps {cfg : VDMConfig} {p : ℤ} :
    ∀ (acts : List VDMAction),
    (∀ a ∈ acts, ∃ now r, a = VDMAction.ensure now r) →
    ∀ (st : VDMState), EnsureInv p st →
    EnsureInv p (acts.foldl (vdmStep cfg) st) ∧
    (p ∈ st.loading → p ∈ (acts.foldl (vdmStep cfg) st).loading) := by
  intro acts
  induction acts with
  | nil => exact fun _ s h => ⟨h, fun hm => hm⟩
  | cons a t ih =>
    intro hall st h
    obtain ⟨now, r, rfl⟩ := hall a (List.mem_cons_self a t)
    rw [List.foldl_cons]
    have hstep : vdmStep cfg st (VDMAction.ensure now r) =
        ensureDataLoaded cfg now st r := rfl
    rw [hstep]
    have ht : ∀ b ∈ t, ∃ n q, b = VDMAction.ensure n q :=
      fun b hb => hall b (List.mem_cons_of_mem _ hb)
    obtain ⟨h1, h2⟩ := ih ht _ (ensureDataLoaded_inv h)
    exact ⟨h1, fun hm => h2 (ensureDataLoaded_loading_mono hm)⟩

/-- C3: page idempotence of `ensureDataLoaded`.  In any event sequence made
only of `ensureDataLoaded` calls (no fetch has resolved or rejected yet), at
least one of which covers page `p` (a page that actually holds rows:
`0 < min pageSize (rowCount - p*pageSize)`), exactly one `fetchRows` call has
been issued for `p` and `p` is marked loading; moreover a single further
`ensureDataLoaded` call on any state in which `p` is already loading or
already available issues no new fetch for `p`. -/
theorem c3_page_idempotence (cfg : VDMConfig) (p : ℤ) (acts : List VDMAction)
    (hlim : 0 < min cfg.pageSize (cfg.rowCount - p * cfg.pageSize))
    (hens : ∀ a ∈ acts, ∃ now r, a = VDMAction.ensure now r)
    (hcov : ∃ now r, VDMAction.ensure now r ∈ acts ∧ covers cfg r p) :
    ((vdmRun cfg acts).started.count p = 1 ∧ p ∈ (vdmRun cfg acts).loading)
    ∧ ∀ (st : VDMState) (now : ℤ) (q : VisibleRange),
        p ∈ st.loading ∨ hasPage st p = true →
        (ensureDataLoaded cfg now st q).started.count p =
          st.started.count p := by
  refine ⟨?_, fun st now q h => ensureDataLoaded_count_frozen h⟩
  obtain ⟨now, r, hmem, hcovr⟩ := hcov
  obtain ⟨l1, l2, rfl⟩ := List.append_of_mem hmem
  unfold vdmRun
  rw [List.foldl_append, List.foldl_cons]
  have h0 : EnsureInv p initialVDMState := by
    refine ⟨fun h => absurd h ?_, fun _ => rfl, fun e he => absurd he ?_⟩
    · exact List.not_mem_nil p
    · exact List.not_mem_nil e
  have hens1 : ∀ a ∈ l1, ∃ n q, a = VDMAction.ensure n q :=
    fun a ha => hens a (List.mem_append_left _ ha)
  have h1 := (@ensure_run_keeps cfg p l1 hens1 initialVDMState h0).1
  have hstep : vdmStep cfg (l1.foldl (vdmStep cfg) initialVDMState)
      (VDMAction.ensure now r) =
      ensureDataLoaded cfg now (l1.foldl (vdmStep cfg) initialVDMState) r :=
    rfl
  rw [hstep]
  have hload : p ∈ (ensureDataLoaded cfg now
      (l1.foldl (vdmStep cfg) initialVDMState) r).loading :=
    ensureDataLoaded_covers hlim hcovr h1.2.2
  have hens2 : ∀ a ∈ l2, ∃ n q, a = VDMAction.ensure n q :=
    fun a ha => hens a (List.mem_append_right _ (List.mem_cons_of_mem _ ha))
  obtain ⟨h3, h4⟩ := @ensure_run_keeps cfg p l2 hens2 _ (ensureDataLoaded_inv h1)
  exact ⟨h3.1 (h4 hload), h4 hload⟩

theorem c3_page_idempotence_witness :
    (vdmRun c6Cfg c3Acts).started.count 0 = 1 ∧
    (0 : ℤ) ∈ (vdmRun c6Cfg c3Acts).loading :=
  (c3_page_idempotence c6Cfg 0 c3Acts (by decide)
    (by
      intro a ha
      simp only [c3Acts, List.mem_cons, List.not_mem_nil, or_false] at ha
      rcases ha with rfl | rfl
      · exact ⟨0, c3Rng, rfl⟩
      · exact ⟨7, c3Rng, rfl⟩)
    ⟨0, c3Rng, by simp [c3Acts], by refine ⟨?_, ?_⟩ <;> decide⟩).1

theorem filter_keys_nodup {m : List (ℤ × DataPage)} {f : ℤ × DataPage → Bool}
    (h : (m.map Prod.fst).Nodup) : ((m.filter f).map Prod.fst).Nodup :=
  List.Nodup.sublist (List.Sublist.map Prod.fst (List.filter_sublist m)) h

theorem sizeFilter_perm {cfg : VDMConfig} {m : List (ℤ × DataPage)}
    (h : (m.map Prod.fst).Nodup) :
    List.Perm
      (m.filter (fun e => decide (e.1 ∉ sizeEvictedKeys cfg m)))
      ((m.insertionSort tsLE).drop (m.length - cfg.cacheSize)) := by
  have hperm : List.Perm (m.insertionSort tsLE) m :=
    List.perm_insertionSort tsLE m
  have hs : (m.insertionSort tsLE).take (m.length - cfg.cacheSize) ++
      (m.insertionSort tsLE).drop (m.length - cfg.cacheSize) =
      m.insertionSort tsLE := List.take_append_drop _ _
  have hnodupS : ((m.insertionSort tsLE).map Prod.fst).Nodup :=
    (List.Perm.nodup_iff (hperm.map Prod.fst)).2 h
  have hdisj : ∀ e ∈ (m.insertionSort tsLE).drop (m.length - cfg.cacheSize),
      e.1 ∉ sizeEvictedKeys cfg m := by
    intro e he hmem
    unfold sizeEvictedKeys at hmem
    have hnodup2 := hnodupS
    rw [← hs, List.map_append, List.nodup_append] at hnodup2
    exact hnodup2.2.2 hmem (List.mem_map_of_mem Prod.fst he)
  have hkeep : ((m.insertionSort tsLE).drop (m.length - cfg.cacheSize)).filter
      (fun e => decide (e.1 ∉ sizeEvictedKeys cfg m)) =
      (m.insertionSort tsLE).drop (m.length - cfg.cacheSize) := by
    rw [List.filter_eq_self]
    intro e he
    simpa using hdisj e he
  have hgone : ((m.insertionSort tsLE).take (m.length - cfg.cacheSize)).filter
      (fun e => decide (e.1 ∉ sizeEvictedKeys cfg m)) = [] := by
    rw [List.filter_eq_nil_iff]
    intro e he
    simp only [decide_eq_true_eq, not_not, sizeEvictedKeys]
    exact List.mem_map_of_mem Prod.fst he
  have hchain : (m.insertionSort tsLE).filter
      (fun e => decide (e.1 ∉ sizeEvictedKeys cfg m)) =
      (m.insertionSort tsLE).drop (m.length - cfg.cacheSize) := by
    rw [← hs, List.filter_append, hgone, hkeep, List.nil_append, hs]
  have := List.Perm.filter (fun e => decide (e.1 ∉ sizeEvictedKeys cfg m)) hperm
  rw [hchain] at this
  exact this.symm

theorem sizeFilter_length {cfg : VDMConfig} {m : List (ℤ × DataPage)}
    (h : (m.map Prod.fst).Nodup) :
    (m.filter (fun e => decide (e.1 ∉ sizeEvictedKeys cfg m))).length =
      min cfg.cacheSize m.length := by
  have h1 := (@sizeFilter_perm cfg m h).length_eq
  have h2 := (List.perm_insertionSort tsLE m).length_eq
  rw [h1, List.length_drop, h2]
  omega

theorem sizeEvicted_le_kept {cfg : VDMConfig} {m : List (ℤ × DataPage)}
    (h : (m.map Prod.fst).Nodup) :
    ∀ e ∈ (m.insertionSort tsLE).take (m.length - cfg.cacheSize),
    ∀ f ∈ m.filter (fun e => decide (e.1 ∉ sizeEvictedKeys cfg m)),
    e.2.timestamp ≤ f.2.timestamp := by
  intro e he f hf
  have hsorted : List.Pairwise tsLE (m.insertionSort tsLE) :=
    List.sorted_insertionSort tsLE m
  rw [← List.take_append_drop (m.length - cfg.cacheSize)
    (m.insertionSort tsLE), List.pairwise_append] at hsorted
  have hfmem : f ∈ (m.insertionSort tsLE).drop (m.length - cfg.cacheSize) :=
    (List.Perm.mem_iff (sizeFilter_perm h)).1 hf
  exact hsorted.2.2 e he f hfmem

theorem cleanupCache_length_le {cfg : VDMConfig} {now : ℤ}
    {m : List (ℤ × DataPage)} (h : (m.map Prod.fst).Nodup) :
    (cleanupCache cfg now m).length ≤ cfg.cacheSize := by
  unfold cleanupCache
  have h1 := List.length_filter_le
    (fun e => decide (now - e.2.timestamp ≤ cfg.maxCacheAge))
    (m.filter (fun e => decide (e.1 ∉ sizeEvictedKeys cfg m)))
  have h2 := @sizeFilter_length cfg m h
  omega

theorem cleanupCache_keys_nodup {cfg : VDMConfig} {now : ℤ}
    {m : List (ℤ × DataPage)} (h : (m.map Prod.fst).Nodup) :
    ((cleanupCache cfg now m).map Prod.fst).Nodup := by
  unfold cleanupCache
  exact filter_keys_nodup (filter_keys_nodup h)


theorem loadPageStart_keys_nodup {cfg : VDMConfig} {now : ℤ} {st : VDMState}
    {q : ℤ} (h : (st.pages.map Prod.fst).Nodup) :
    ((loadPageStart cfg now st q).pages.map Prod.fst).Nodup := by
  unfold loadPageStart
  split
  · exact h
  · exact mapSet_keys_nodup h

theorem guardedLoad_keys_nodup {cfg : VDMConfig} {now : ℤ} {s : VDMState}
    {q : ℤ} (h : (s.pages.map Prod.fst).Nodup) :
    ((guardedLoad cfg now s q).pages.map Prod.fst).Nodup := by
  unfold guardedLoad
  split
  · exact loadPageStart_keys_nodup h
  · exact h

theorem guardedPrefetchLoad_keys_nodup {cfg : VDMConfig} {now : ℤ}
    {s : VDMState} {q : ℤ} (h : (s.pages.map Prod.fst).Nodup) :
    ((guardedPrefetchLoad cfg now s q).pages.map Prod.fst).Nodup := by
  unfold guardedPrefetchLoad
  split
  · exact loadPageStart_keys_nodup h
  · exact h

theorem foldl_guardedLoad_keys_nodup {cfg : VDMConfig} {now : ℤ} :
    ∀ (l : List ℤ) (s : VDMState), (s.pages.map Prod.fst).Nodup →
    ((l.foldl (guardedLoad cfg now) s).pages.map Prod.fst).Nodup := by
  intro l
  induction l with
  | nil => exact fun s h => h
  | cons q t ih =>
    intro s h
    rw [List.foldl_cons]
    exact ih _ (guardedLoad_keys_nodup h)

theorem foldl_guardedPrefetchLoad_keys_nodup {cfg : VDMConfig} {now : ℤ} :
    ∀ (l : List ℤ) (s : VDMState), (s.pages.map Prod.fst).Nodup →
    ((l.foldl (guardedPrefetchLoad cfg now) s).pages.map Prod.fst).Nodup := by
  intro l
  induction l with
  | nil => exact fun s h => h
  | cons q t ih =>
    intro s h
    rw [List.foldl_cons]
    exact ih _ (guardedPrefetchLoad_keys_nodup h)

theorem vdmStep_keys_nodup {cfg : VDMConfig} {st : VDMState} {a : VDMAction}
    (h : (st.pages.map Prod.fst).Nodup) :
    ((vdmStep cfg st a).pages.map Prod.fst).Nodup := by
  cases a with
  | ensure now r =>
    show ((ensureDataLoaded cfg now st r).pages.map Prod.fst).Nodup
    simp only [ensureDataLoaded]
    split
    · exact foldl_guardedPrefetchLoad_keys_nodup _ _
        (foldl_guardedLoad_keys_nodup _ _ h)
    · exact foldl_guardedLoad_keys_nodup _ _ h
  | fetchOk p t d =>
    show (((if p ∈ st.loading then resolveOk cfg t d st p else st)).pages.map
      Prod.fst).Nodup
    split
    · unfold resolveOk
      apply cleanupCache_keys_nodup
      split
      · exact mapSet_keys_nodup h
      · exact h
    · exact h
  | fetchErr p =>
    show (((if p ∈ st.loading then resolveErr cfg st p else st)).pages.map
      Prod.fst).Nodup
    split
    · unfold resolveErr
      dsimp only
      split
      · exact mapSet_keys_nodup h
      · exact h
    · exact h

theorem vdmRun_keys_nodup (cfg : VDMConfig) (acts : List VDMAction) :
    ((vdmRun cfg acts).pages.map Prod.fst).Nodup := by
  unfold vdmRun
  have hgen : ∀ (l : List VDMAction) (st : VDMState),
      (st.pages.map Prod.fst).Nodup →
      ((l.foldl (vdmStep cfg) st).pages.map Prod.fst).Nodup := by
    intro l
    induction l with
    | nil => exact fun st h => h
    | cons a t ih =>
      intro st h
      rw [List.foldl_cons]
      exact ih _ (vdmStep_keys_nodup h)
  exact hgen acts initialVDMState (by simp [initialVDMState])


/-- C5: cache-size eviction bound and oldest-first eviction order.  In any
reachable manager state, completing a successful page load (which runs
`cleanupCache`) leaves at most `cacheSize` cached pages; and on any cache
with distinct keys the size-bound sweep keeps exactly
`min cacheSize count` entries — precisely the newest ones of the
timestamp-sorted copy — every evicted entry being at least as old as every
surviving entry. -/
theorem c5_eviction_bound (cfg : VDMConfig) (acts : List VDMAction)
    (p t : ℤ) (d : List (List String))
    (hp : p ∈ (vdmRun cfg acts).loading) :
    (vdmStep cfg (vdmRun cfg acts) (VDMAction.fetchOk p t d)).pages.length ≤
      cfg.cacheSize
    ∧ ∀ (m : List (ℤ × DataPage)), (m.map Prod.fst).Nodup →
      ((m.filter (fun e => decide (e.1 ∉ sizeEvictedKeys cfg m))).length =
          min cfg.cacheSize m.length
        ∧ List.Perm
            (m.filter (fun e => decide (e.1 ∉ sizeEvictedKeys cfg m)))
            ((m.insertionSort tsLE).drop (m.length - cfg.cacheSize))
        ∧ ∀ e ∈ (m.insertionSort tsLE).take (m.length - cfg.cacheSize),
          ∀ f ∈ m.filter (fun e => decide (e.1 ∉ sizeEvictedKeys cfg m)),
          e.2.timestamp ≤ f.2.timestamp) := by
  refine ⟨?_, fun m hm =>
    ⟨sizeFilter_length hm, sizeFilter_perm hm, sizeEvicted_le_kept hm⟩⟩
  have hnodup := vdmRun_keys_nodup cfg acts
  show ((if p ∈ (vdmRun cfg acts).loading then
      resolveOk cfg t d (vdmRun cfg acts) p else vdmRun cfg acts)).pages.length
    ≤ cfg.cacheSize
  rw [if_pos hp]
  unfold resolveOk
  apply cleanupCache_length_le
  split
  · exact mapSet_keys_nodup hnodup
  · exact hnodup

theorem c5_eviction_bound_witness :
    (vdmStep c6Cfg (vdmRun c6Cfg [VDMAction.ensure 0 c3Rng])
      (VDMAction.fetchOk 0 5 [["a"]])).pages.length ≤ c6Cfg.cacheSize :=
  (c5_eviction_bound c6Cfg [VDMAction.ensure 0 c3Rng] 0 5 [["a"]]
    (by decide)).1


/-- C6 counterexample: on the freshly constructed manager the page owning
row 0 is absent, and `VirtualDataManager.getCell` returns `null` (`none`) —
not the empty string; the empty string only appears after the
`DataManager.getCell` façade applies `|| ''`. -/
theorem c6_counterexample :
    vGetCell c6Cfg initialVDMState 0 0 = none ∧
    dmGetCell c6Cfg initialVDMState 0 0 = "" := by
  constructor <;> rfl

/-- C6 (amended): whenever the page owning `row` is absent, still loading,
or errored, `VirtualDataManager.getCell` returns `null` and the
`DataManager.getCell` façade — which ORs that result with `''` — returns
the empty string. -/
theorem c6_empty_on_unavailable (cfg : VDMConfig) (st : VDMState)
    (row col : ℤ)
    (h : mapGet st.pages (row / cfg.pageSize) = none ∨
      ∃ pg, mapGet st.pages (row / cfg.pageSize) = some pg ∧
        (pg.isLoading = true ∨ pg.error = true)) :
    vGetCell cfg st row col = none ∧ dmGetCell cfg st row col = "" := by
  have hv : vGetCell cfg st row col = none := by
    unfold vGetCell
    rcases h with h | ⟨pg, h, hbad⟩
    · rw [h]
    · rw [h]
      have hor : (pg.isLoading || pg.error) = true := by
        rcases hbad with hb | hb <;> simp [hb]
      simp only [hor, if_true]
  refine ⟨hv, ?_⟩
  unfold dmGetCell
  rw [hv]
  rfl

theorem c6_empty_on_unavailable_witness :
    vGetCell c6Cfg (loadPageStart c6Cfg 0 initialVDMState 0) 3 2 = none ∧
    dmGetCell c6Cfg (loadPageStart c6Cfg 0 initialVDMState 0) 3 2 = "" :=
  c6_empty_on_unavailable c6Cfg (loadPageStart c6Cfg 0 initialVDMState 0) 3 2
    (Or.inr ⟨⟨0, 500, [], 0, true, false⟩, by decide, Or.inl rfl⟩)

/-- C9: when the committed selection changes, the new selection is
committed immediately in every case, and a transition animation starts iff
both the previous and the next selection are non-null and the configured
duration is positive (the effect clamps it to `[0, 1000]`, which preserves
positivity). -/
theorem c9_selection_transition (d : ℚ)
    (tr : Option (SelectionRange × SelectionRange))
    (prev next : Option SelectionRange) (h : prev ≠ next) :
    (selectionEffect d tr prev next).1 = next ∧
    ((selectionEffect d tr prev next).2 ≠ none ↔
      prev ≠ none ∧ next ≠ none ∧ 0 < d) := by
  unfold selectionEffect
  rw [if_neg h]
  by_cases h0 : clampDuration d = 0 ∨ prev = none ∨ next = none
  · rw [if_pos h0]
    refine ⟨rfl, ?_⟩
    constructor
    · intro hc
      exact absurd rfl hc
    · rintro ⟨hp, hn, hd⟩
      exfalso
      rcases h0 with h0 | h0 | h0
      · have hlt : (0 : ℚ) < clampDuration d := by
          unfold clampDuration
          exact lt_max_of_lt_right (lt_min (by norm_num) hd)
        rw [h0] at hlt
        exact lt_irrefl 0 hlt
      · exact hp h0
      · exact hn h0
  · rw [if_neg h0]
    push_neg at h0
    obtain ⟨hd, hp, hn⟩ := h0
    rcases prev with _ | p
    · exact absurd rfl hp
    rcases next with _ | n
    · exact absurd rfl hn
    refine ⟨rfl, ?_⟩
    constructor
    · intro _
      refine ⟨by simp, by simp, ?_⟩
      by_contra hle
      push_neg at hle
      apply hd
      unfold clampDuration
      exact max_eq_left (min_le_of_right_le hle)
    · intro _
      simp

theorem c9_selection_transition_witness :
    (selectionEffect 150 none (some (SelectionRange.column 0 0))
      (some (SelectionRange.column 1 1))).1 =
        some (SelectionRange.column 1 1) ∧
    ((selectionEffect 150 none (some (SelectionRange.column 0 0))
      (some (SelectionRange.column 1 1))).2 ≠ none ↔
      some (SelectionRange.column 0 0) ≠ none ∧
      some (SelectionRange.column 1 1) ≠ none ∧ (0 : ℚ) < 150) :=
  c9_selection_transition 150 none (some (SelectionRange.column 0 0))
    (some (SelectionRange.column 1 1)) (by decide)


theorem upResize_columnDrag (st : CtrlState) :
    (upResize st).columnDrag = st.columnDrag := by
  unfold upResize
  split
  · rfl
  · rfl

theorem upResize_currentOrder (st : CtrlState) :
    (upResize st).currentOrder = st.currentOrder := by
  unfold upResize
  split
  · rfl
  · rfl

theorem upResize_scrollbarDrag (st : CtrlState) :
    (upResize st).scrollbarDrag = st.scrollbarDrag := by
  unfold upResize
  split
  · rfl
  · rfl

theorem upResize_resizeActive (st : CtrlState) :
    (upResize st).resizeActive = false ∨
    (upResize st).resizeActive = st.resizeActive := by
  unfold upResize
  split
  · exact Or.inl rfl
  · exact Or.inr rfl

theorem applyColumnRemap_currentOrder (st : CtrlState)
    (sel : Option (List ℕ)) (ord : List ℕ) :
    (applyColumnRemap st sel ord).currentOrder = st.currentOrder := by
  unfold applyColumnRemap
  rcases sel with _ | l
  · rfl
  · dsimp only
    rcases hm : mappedVisibleOf l ord with _ | ⟨m, ms⟩ <;> rfl

theorem applyColumnRemap_columnDrag (st : CtrlState)
    (sel : Option (List ℕ)) (ord : List ℕ) :
    (applyColumnRemap st sel ord).columnDrag = st.columnDrag := by
  unfold applyColumnRemap
  rcases sel with _ | l
  · rfl
  · dsimp only
    rcases hm : mappedVisibleOf l ord with _ | ⟨m, ms⟩ <;> rfl

theorem applyColumnRemap_scrollbarDrag (st : CtrlState)
    (sel : Option (List ℕ)) (ord : List ℕ) :
    (applyColumnRemap st sel ord).scrollbarDrag = st.scrollbarDrag := by
  unfold applyColumnRemap
  rcases sel with _ | l
  · rfl
  · dsimp only
    rcases hm : mappedVisibleOf l ord with _ | ⟨m, ms⟩ <;> rfl

theorem applyColumnRemap_resizeActive (st : CtrlState)
    (sel : Option (List ℕ)) (ord : List ℕ) :
    (applyColumnRemap st sel ord).resizeActive = st.resizeActive := by
  unfold applyColumnRemap
  rcases sel with _ | l
  · rfl
  · dsimp only
    rcases hm : mappedVisibleOf l ord with _ | ⟨m, ms⟩ <;> rfl


theorem upCommit_none (env : ControllerEnv) (st : CtrlState)
    (h : st.columnDrag = none) :
    upCommit env st = ({ st with columnDrag := none }, []) := by
  unfold upCommit
  rw [h]

theorem upCommit_some (env : ControllerEnv) (st : CtrlState) (d : DragSession)
    (h : st.columnDrag = some d) :
    upCommit env st =
      if env.draggableColumns = true ∧ d.status = DragStatus.dragging ∧
          env.hasOrderCallback = true then
        match d.previewOrder with
        | some po =>
          (applyColumnRemap { st with currentOrder := po, columnDrag := none }
            d.selectedDataIndices po, [po])
        | none => ({ st with columnDrag := none }, [])
      else ({ st with columnDrag := none }, []) := by
  unfold upCommit
  rw [h]

theorem dispatchUp_snd (env : ControllerEnv) (st : CtrlState) :
    (dispatchUp env st).2 =
      match st.columnDrag with
      | some d =>
        if env.draggableColumns = true ∧ d.status = DragStatus.dragging ∧
            env.hasOrderCallback = true then
          match d.previewOrder with
          | some po => [po]
          | none => []
        else []
      | none => [] := by
  unfold dispatchUp
  have hcd : (upResize { st with scrollbarDrag := none }).columnDrag =
      st.columnDrag := upResize_columnDrag _
  generalize hst : upResize { st with scrollbarDrag := none } = t at hcd ⊢
  rw [← hcd]
  rcases hd : t.columnDrag with _ | d
  · rw [upCommit_none env t hd]
  · rw [upCommit_some env t d hd]
    dsimp only
    by_cases hcond : env.draggableColumns = true ∧
        d.status = DragStatus.dragging ∧ env.hasOrderCallback = true
    · rw [if_pos hcond, if_pos hcond]
      rcases hp : d.previewOrder with _ | po <;> rfl
    · rw [if_neg hcond, if_neg hcond]

theorem dispatchUp_currentOrder_of_emit (env : ControllerEnv)
    (st : CtrlState) (po : List ℕ) (h : (dispatchUp env st).2 = [po]) :
    (dispatchUp env st).1.currentOrder = po := by
  unfold dispatchUp at h ⊢
  generalize hst : upResize { st with scrollbarDrag := none } = t at h ⊢
  rcases hd : t.columnDrag with _ | d
  · rw [upCommit_none env t hd] at h
    exact List.noConfusion h
  · rw [upCommit_some env t d hd] at h ⊢
    by_cases hcond : env.draggableColumns = true ∧
        d.status = DragStatus.dragging ∧ env.hasOrderCallback = true
    · rw [if_pos hcond] at h ⊢
      rcases hp : d.previewOrder with _ | po2 <;> (try rw [hp] at h) <;>
        dsimp only at h ⊢
      · exact List.noConfusion h
      · cases h
        rw [applyColumnRemap_currentOrder]
    · rw [if_neg hcond] at h
      exact List.noConfusion h


/-- C8: the column-order change callback is emitted only by a
`pointerUp`; an up dispatch emits a singleton `[po]` exactly when a
promoted (dragging) reorder session with preview order `po` is released
with `draggableColumns` set and a callback registered, and the emitted
order is exactly the order installed as current; releasing a pending
(never promoted) session emits nothing; no dispatch ever emits more than
one order. -/
theorem c8_commit_emission (env : ControllerEnv) (st : CtrlState)
    (ev : CtrlEvent) :
    ((dispatchEvent env st ev).2 ≠ [] → ev = CtrlEvent.up) ∧
    (∀ po : List ℕ, (dispatchEvent env st ev).2 = [po] ↔
      ev = CtrlEvent.up ∧ env.draggableColumns = true ∧
        env.hasOrderCallback = true ∧
        ∃ d, st.columnDrag = some d ∧ d.status = DragStatus.dragging ∧
          d.previewOrder = some po) ∧
    (∀ po : List ℕ, (dispatchEvent env st ev).2 = [po] →
      (dispatchEvent env st ev).1.currentOrder = po) ∧
    (∀ d, st.columnDrag = some d → d.status = DragStatus.pending →
      (dispatchEvent env st ev).2 = []) ∧
    (dispatchEvent env st ev).2.length ≤ 1 := by
  cases ev with
  | down x y n =>
    refine ⟨fun hc => absurd rfl hc, ?_, ?_, fun d _ _ => rfl, Nat.zero_le 1⟩
    · intro po
      constructor
      · intro hc
        exact List.noConfusion hc
      · rintro ⟨hev, -⟩
        exact CtrlEvent.noConfusion hev
    · intro po hc
      exact List.noConfusion hc
  | move x y =>
    refine ⟨fun hc => absurd rfl hc, ?_, ?_, fun d _ _ => rfl, Nat.zero_le 1⟩
    · intro po
      constructor
      · intro hc
        exact List.noConfusion hc
      · rintro ⟨hev, -⟩
        exact CtrlEvent.noConfusion hev
    · intro po hc
      exact List.noConfusion hc
  | up =>
    have hs := dispatchUp_snd env st
    have hrfl : (dispatchEvent env st CtrlEvent.up).2 = (dispatchUp env st).2
      := rfl
    refine ⟨fun _ => rfl, ?_, ?_, ?_, ?_⟩
    · intro po
      rw [hrfl, hs]
      constructor
      · intro hc
        rcases hd : st.columnDrag with _ | d <;> (try rw [hd] at hc) <;>
          dsimp only at hc
        · exact List.noConfusion hc
        · split at hc
          · rename_i hcond
            rcases hp : d.previewOrder with _ | po2 <;>
              (try rw [hp] at hc) <;> dsimp only at hc
            · exact List.noConfusion hc
            · cases hc
              exact ⟨rfl, hcond.1, hcond.2.2, d, rfl, hcond.2.1, hp⟩
          · exact List.noConfusion hc
      · rintro ⟨-, hdrag, hcb, d, hd, hst2, hp⟩
        rw [hd]
        dsimp only
        rw [if_pos ⟨hdrag, hst2, hcb⟩, hp]
    · intro po
      exact dispatchUp_currentOrder_of_emit env st po
    · intro d hd hpend
      rw [hrfl, hs, hd]
      dsimp only
      have hno : ¬ (env.draggableColumns = true ∧
          d.status = DragStatus.dragging ∧ env.hasOrderCallback = true) := by
        rintro ⟨-, hds, -⟩
        rw [hpend] at hds
        exact DragStatus.noConfusion hds
      rw [if_neg hno]
    · rw [hrfl, hs]
      rcases hd : st.columnDrag with _ | d <;> dsimp only
      · exact Nat.zero_le 1
      · split
        · rcases hp : d.previewOrder with _ | po2 <;> simp
        · exact Nat.zero_le 1




theorem c8_commit_emission_witness :
    (dispatchEvent c4Env c8DragState CtrlEvent.up).2 = [[1, 0]] :=
  ((c8_commit_emission c4Env c8DragState CtrlEvent.up).2.1 [1, 0]).2
    ⟨rfl, rfl, rfl, _, rfl, rfl, rfl⟩


/-- C4 counterexample: a single pointer-down at (390, 40) on the C4
environment hits both the vertical scrollbar thumb (the track starts at
x = 384) and the resize handle of column 1 (screen range [386, 394] —
`getHandleAtPoint` ignores the y coordinate entirely), so one event starts
a scrollbar drag session and a column-resize session simultaneously. -/
theorem c4_counterexample :
    (dispatchEvent c4Env c4State (CtrlEvent.down 390 40 true)).1.scrollbarDrag
      = some ⟨SbKind.vertical, 4⟩ ∧
    (dispatchEvent c4Env c4State
      (CtrlEvent.down 390 40 true)).1.resizeActive = true := by
  constructor <;>
    norm_num [dispatchEvent, dispatchDown, downScrollbar, downResizeStep,
      resizeDownHit, getResizeHandles, resizeHandlesAux, getHandleAtPoint,
      downSelect, c4Env, c4State, SCROLLBAR_WIDTH, HANDLE_WIDTH,
      List.filter, List.find?]

theorem moveScrollbar_sessions (env : ControllerEnv) (st : CtrlState)
    (x y : ℚ) :
    (moveScrollbar env st x y).scrollbarDrag = st.scrollbarDrag ∧
    (moveScrollbar env st x y).resizeActive = st.resizeActive ∧
    (moveScrollbar env st x y).columnDrag = st.columnDrag := by
  unfold moveScrollbar
  rcases hd : st.scrollbarDrag with _ | d
  · exact ⟨hd, rfl, rfl⟩
  · obtain ⟨k, off⟩ := d
    cases k <;> dsimp only <;> split
    · exact ⟨rfl, rfl, rfl⟩
    · exact ⟨hd, rfl, rfl⟩
    · exact ⟨rfl, rfl, rfl⟩
    · exact ⟨hd, rfl, rfl⟩

theorem moveResize_sessions (env : ControllerEnv) (st : CtrlState) (x : ℚ) :
    (moveResize env st x).scrollbarDrag = st.scrollbarDrag ∧
    (moveResize env st x).resizeActive = st.resizeActive ∧
    (moveResize env st x).columnDrag = st.columnDrag := by
  unfold moveResize
  split
  · rcases hs : st.resizeSession with _ | rs <;> exact ⟨rfl, rfl, rfl⟩
  · exact ⟨rfl, rfl, rfl⟩

theorem moveDrag_sessions (env : ControllerEnv) (w : ColumnWidths) (sl : ℚ)
    (st : CtrlState) (x y : ℚ) :
    (moveDrag env w sl st x y).scrollbarDrag = st.scrollbarDrag ∧
    (moveDrag env w sl st x y).resizeActive = st.resizeActive ∧
    (st.columnDrag = none → (moveDrag env w sl st x y).columnDrag = none) := by
  unfold moveDrag
  split
  · rcases hd : st.columnDrag with _ | s
    · exact ⟨rfl, rfl, fun _ => hd⟩
    · dsimp only
      refine ⟨?_, ?_, fun h => Option.noConfusion h⟩
      · split
        · rw [if_pos rfl, applyColumnRemap_scrollbarDrag]
        · split
          · rw [applyColumnRemap_scrollbarDrag]
          · rfl
      · split
        · rw [if_pos rfl, applyColumnRemap_resizeActive]
        · split
          · rw [applyColumnRemap_resizeActive]
          · rfl
  · exact ⟨rfl, rfl, fun h => h⟩

theorem dispatchMove_sessions (env : ControllerEnv) (st : CtrlState)
    (x y : ℚ) :
    (dispatchMove env st x y).scrollbarDrag = st.scrollbarDrag ∧
    (dispatchMove env st x y).resizeActive = st.resizeActive ∧
    (st.columnDrag = none → (dispatchMove env st x y).columnDrag = none) := by
  unfold dispatchMove
  obtain ⟨a1, a2, a3⟩ := moveScrollbar_sessions env st x y
  obtain ⟨b1, b2, b3⟩ := moveResize_sessions env (moveScrollbar env st x y) x
  obtain ⟨c1, c2, c3⟩ := moveDrag_sessions env st.columnWidths st.scrollLeft
    (moveResize env (moveScrollbar env st x y) x) x y
  refine ⟨c1.trans (b1.trans a1), c2.trans (b2.trans a2), fun h => ?_⟩
  exact c3 (b3.trans (a3.trans h))


theorem downScrollbar_none_of_false (env : ControllerEnv) (st : CtrlState)
    (x y : ℚ) (h : (downScrollbar env st x y).2 = false) :
    (downScrollbar env st x y).1 = st.scrollbarDrag := by
  unfold downScrollbar at h ⊢
  by_cases h1 : env.vertical.visible = true ∧
      env.canvasWidth - SCROLLBAR_WIDTH ≤ x
  · rw [if_pos h1] at h
    exact Bool.noConfusion h
  · rw [if_neg h1] at h ⊢
    by_cases h2 : env.horizontal.visible = true ∧
        env.canvasHeight - SCROLLBAR_WIDTH ≤ y
    · rw [if_pos h2] at h
      exact Bool.noConfusion h
    · rw [if_neg h2]

theorem downResizeStep_id_of_false (env : ControllerEnv) (st : CtrlState)
    (x : ℚ) (h : (downResizeStep env st x).2 = false) :
    (downResizeStep env st x).1 = st := by
  unfold downResizeStep at h ⊢
  by_cases h1 : env.resizable = true
  · rw [if_pos h1] at h ⊢
    rcases hh : resizeDownHit env st.columnWidths st.scrollLeft x with _ | ht
    · rfl
    · rw [hh] at h
      exact Bool.noConfusion h
  · rw [if_neg h1] at h ⊢

theorem downResizeStep_columnDrag (env : ControllerEnv) (st : CtrlState)
    (x : ℚ) : (downResizeStep env st x).1.columnDrag = st.columnDrag := by
  unfold downResizeStep
  split
  · split <;> rfl
  · rfl

theorem downSelect_fields (env : ControllerEnv) (st : CtrlState) (x y : ℚ) :
    (downSelect env st x y).scrollbarDrag = st.scrollbarDrag ∧
    (downSelect env st x y).resizeActive = st.resizeActive := by
  unfold downSelect
  split
  · rcases getHeaderColumnFromPoint env st.columnWidths st.scrollLeft x y with
      _ | col <;> exact ⟨rfl, rfl⟩
  · split
    · rcases getRowFromPoint env st.scrollTop y with _ | r
      · exact ⟨rfl, rfl⟩
      · dsimp only
        split <;> exact ⟨rfl, rfl⟩
    · rcases getCellFromPoint env st.columnWidths st.scrollTop st.scrollLeft
        x y with _ | rc <;> exact ⟨rfl, rfl⟩

theorem dispatchDown_excl (env : ControllerEnv) (st : CtrlState) (x y : ℚ)
    (hfree : SessionFree st) : Excl (dispatchDown env st x y true) := by
  obtain ⟨hsb, hrz, hcd⟩ := hfree
  unfold dispatchDown
  split
  · rename_i hcond
    have hc2 : (downScrollbar env st x y).2 = false ∧
        (downResizeStep env
          { st with scrollbarDrag := (downScrollbar env st x y).1 } x).2 =
          false := by
      rcases hcond with hx | hx
      · exact absurd hx (by simp)
      · exact hx
    have hsb1 : (downScrollbar env st x y).1 = none := by
      rw [downScrollbar_none_of_false env st x y hc2.1, hsb]
    have hst1 := downResizeStep_id_of_false env
      { st with scrollbarDrag := (downScrollbar env st x y).1 } x hc2.2
    intro _
    obtain ⟨hf1, hf2⟩ := downSelect_fields env
      ((downResizeStep env
        { st with scrollbarDrag := (downScrollbar env st x y).1 } x).1) x y
    constructor
    · rw [hf1, hst1]
      exact hsb1
    · rw [hf2, hst1]
      exact hrz
  · intro hne
    exfalso
    apply hne
    rw [downResizeStep_columnDrag]
    exact hcd

theorem upResize_resizeActive_false (st : CtrlState) :
    (upResize st).resizeActive = false := by
  unfold upResize
  split
  · rfl
  · rename_i h
    simp only [Bool.not_eq_true] at h
    exact h

theorem upCommit_fst_fields (env : ControllerEnv) (st : CtrlState) :
    (upCommit env st).1.scrollbarDrag = st.scrollbarDrag ∧
    (upCommit env st).1.resizeActive = st.resizeActive ∧
    (upCommit env st).1.columnDrag = none := by
  rcases hd : st.columnDrag with _ | d
  · rw [upCommit_none env st hd]
    exact ⟨rfl, rfl, rfl⟩
  · rw [upCommit_some env st d hd]
    split
    · rcases hp : d.previewOrder with _ | po <;> dsimp only
      · exact ⟨rfl, rfl, rfl⟩
      · refine ⟨?_, ?_, ?_⟩
        · rw [applyColumnRemap_scrollbarDrag]
        · rw [applyColumnRemap_resizeActive]
        · rw [applyColumnRemap_columnDrag]
    · exact ⟨rfl, rfl, rfl⟩

theorem dispatchUp_sessionFree (env : ControllerEnv) (st : CtrlState) :
    SessionFree (dispatchUp env st).1 := by
  unfold dispatchUp
  obtain ⟨f1, f2, f3⟩ := upCommit_fst_fields env
    (upResize { st with scrollbarDrag := none })
  refine ⟨?_, ?_, f3⟩
  · rw [f1, upResize_scrollbarDrag]
  · rw [f2, upResize_resizeActive_false]


theorem wf_run_excl (env : ControllerEnv) :
    ∀ (pre suf : List CtrlEvent) (b : Bool) (s : CtrlState),
    Excl s → (b = false → SessionFree s) → wfPtr b (pre ++ suf) →
    Excl (runCtrl env s pre).1 := by
  intro pre
  induction pre with
  | nil => exact fun _ _ s hE _ _ => hE
  | cons e t ih =>
    intro suf b s hE hF hwf
    cases e with
    | down x y n =>
      obtain ⟨hb, hn, hwf2⟩ := hwf
      subst hn
      have hfree := hF hb
      exact ih suf true _ (dispatchDown_excl env s x y hfree)
        (fun hc => Bool.noConfusion hc) hwf2
    | move x y =>
      obtain ⟨m1, m2, m3⟩ := dispatchMove_sessions env s x y
      refine ih suf b _ ?_ ?_ hwf
      · intro hne
        have hcd : s.columnDrag ≠ none := by
          intro hc
          exact hne (m3 hc)
        obtain ⟨e1, e2⟩ := hE hcd
        exact ⟨m1.trans e1, m2.trans e2⟩
      · intro hb
        obtain ⟨f1, f2, f3⟩ := hF hb
        exact ⟨m1.trans f1, m2.trans f2, m3 f3⟩
    | up =>
      obtain ⟨hb, hwf2⟩ := hwf
      have hsf := dispatchUp_sessionFree env s
      exact ih suf false _ (fun _ => ⟨hsf.1, hsf.2.1⟩) (fun _ => hsf) hwf2

/-- C4 (amended): in any well-formed single-pointer event stream — downs
and ups alternate and every down carries a native browser event — started
from a state with no live session, a column-reorder session (pending or
promoted) never coexists with a scrollbar drag or a column-resize session:
at every prefix of the run, if `columnDrag` is set then the scrollbar drag
is clear and no resize is active.  (The unrestricted claim is false: the
C4 counterexample starts a scrollbar drag and a resize session with one
pointer-down, because the resize block never consults the scrollbar state
and its hit test ignores the y coordinate.) -/
theorem c4_reorder_exclusivity (env : ControllerEnv) (s0 : CtrlState)
    (evs pre suf : List CtrlEvent) (h0 : SessionFree s0)
    (hwf : wfPtr false evs) (hsplit : evs = pre ++ suf) :
    Excl (runCtrl env s0 pre).1 := by
  subst hsplit
  exact wf_run_excl env pre suf false s0 (fun _ => ⟨h0.1, h0.2.1⟩)
    (fun _ => h0) hwf

theorem c4_reorder_exclusivity_witness :
    Excl (runCtrl c4Env c4State [CtrlEvent.down 390 40 true]).1 :=
  c4_reorder_exclusivity c4Env c4State
    [CtrlEvent.down 390 40 true, CtrlEvent.up]
    [CtrlEvent.down 390 40 true] [CtrlEvent.up]
    ⟨rfl, rfl, rfl⟩ ⟨rfl, rfl, rfl, trivial⟩ rfl


theorem rangeMap_getD (l : List ℕ) :
    (List.range l.length).filterMap (fun i => some (l.getD i i)) = l := by
  have hm : (List.range l.length).filterMap (fun i => some (l.getD i i)) =
      (List.range l.length).map (fun i => l.getD i i) := by
    rw [show (fun i => some (l.getD i i)) =
      some ∘ (fun i => l.getD i i) from rfl, List.filterMap_eq_map]
  rw [hm]
  refine List.ext_getElem (by simp) ?_
  intro i h1 h2
  rw [List.getElem_map, List.getElem_range]
  exact List.getD_eq_getElem l i (by simpa using h2)

theorem buildBase_eq_eraseIdx : ∀ (l : List ℕ) (m : ℕ),
    buildBase l l.length m = l.eraseIdx m := by
  intro l
  induction l with
  | nil => intro m; rfl
  | cons a t ih =>
    intro m
    unfold buildBase
    show (List.range (t.length + 1)).filterMap _ = _
    rw [List.range_succ_eq_map, List.filterMap_cons, List.filterMap_map]
    cases m with
    | zero =>
      simp only [if_pos rfl]
      have hc : ∀ i ∈ List.range t.length,
          ((fun i => if i = 0 then none else
            some ((a :: t).getD i i)) ∘ Nat.succ) i =
          (fun i => some (t.getD i i)) i := by
        intro i hi
        simp only [Function.comp]
        rw [if_neg (Nat.succ_ne_zero i)]
        rw [List.mem_range] at hi
        rw [List.getD_cons_succ, List.getD_eq_getElem t _ hi,
          List.getD_eq_getElem t _ hi]
      rw [List.filterMap_congr hc, rangeMap_getD]
      rfl
    | succ m =>
      simp only [if_neg (Nat.succ_ne_zero m).symm]
      have hc : ∀ i ∈ List.range t.length,
          ((fun i => if i = m + 1 then none else
            some ((a :: t).getD i i)) ∘ Nat.succ) i =
          (fun i => if i = m then none else some (t.getD i i)) i := by
        intro i hi
        simp only [Function.comp]
        rw [List.mem_range] at hi
        by_cases him : i = m
        · subst him
          rw [if_pos rfl, if_pos rfl]
        · rw [if_neg (fun hc2 => him (Nat.succ_injective hc2)), if_neg him,
            List.getD_cons_succ, List.getD_eq_getElem t _ hi,
            List.getD_eq_getElem t _ hi]
      rw [List.filterMap_congr hc]
      show _ :: _ = (a :: t).eraseIdx (m + 1)
      rw [List.eraseIdx_cons_succ]
      exact congrArg (a :: ·) (ih m)

theorem insertIdx_eraseIdx_getD : ∀ (l : List ℕ) (i d : ℕ),
    i < l.length → List.insertIdx i (l.getD i d) (l.eraseIdx i) = l := by
  intro l
  induction l with
  | nil =>
    intro i d h
    exact absurd h (by simp)
  | cons a t ih =>
    intro i d h
    cases i with
    | zero => rfl
    | succ i =>
      rw [List.getD_cons_succ, List.eraseIdx_cons_succ,
        List.insertIdx_succ_cons]
      exact congrArg (a :: ·) (ih i d (by simpa using h))


theorem preview_self (ord : List ℕ) (count c drop : ℕ)
    (hlen : ord.length = count) (hc : c < count)
    (hdrop : drop = c ∨ drop = c + 1) :
    previewOf ord count c drop = ord := by
  unfold previewOf
  have hbase : buildBase ord count c = ord.eraseIdx c := by
    rw [← hlen]
    exact buildBase_eq_eraseIdx ord c
  have hbl : (buildBase ord count c).length = count - 1 := by
    rw [hbase, List.length_eraseIdx]
    rw [hlen]
    rw [if_pos hc]
  have hidx : (if c < min count drop then
      min (buildBase ord count c).length (min count drop - 1)
    else min (buildBase ord count c).length (min count drop)) = c := by
    rw [hbl]
    rcases hdrop with rfl | rfl
    · rw [if_neg (by omega)]
      omega
    · rw [if_pos (by omega)]
      omega
  rw [hidx, hbase]
  have hge : ord.getD c c = ord.getD c c := rfl
  have := insertIdx_eraseIdx_getD ord c c (by omega)
  exact this

theorem snapshotOrderOf_self (count : ℕ) (cur : List ℕ) (h0 : 0 < count)
    (hl : cur.length = count) : snapshotOrderOf count cur = cur := by
  unfold snapshotOrderOf
  rw [if_pos ⟨h0, hl⟩]

theorem initOrderOf_snapshot (count : ℕ) (cur : List ℕ) :
    initOrderOf count (some (snapshotOrderOf count cur)) =
      snapshotOrderOf count cur := by
  unfold snapshotOrderOf
  split
  · rename_i h
    unfold initOrderOf
    dsimp only
    rw [if_pos h.2]
  · unfold initOrderOf
    dsimp only
    rw [if_pos (List.length_range count)]

theorem colAtX_lt_length {adjX : ℚ} :
    ∀ {ws : List ℚ} {acc : ℚ} {i : ℕ},
    colAtX adjX acc ws = some i → i < ws.length := by
  intro ws
  induction ws with
  | nil =>
    intro acc i h
    exact absurd h (by simp [colAtX])
  | cons w t ih =>
    intro acc i h
    unfold colAtX at h
    split at h
    · cases h
      simp
    · obtain ⟨j, hj, rfl⟩ := Option.map_eq_some'.1 h
      have := ih hj
      simp only [List.length_cons]
      omega

theorem headerGuard_of_col {env : ControllerEnv} {cw : ColumnWidths}
    {sl x y : ℚ} {c : ℕ}
    (h : getHeaderColumnFromPoint env cw sl x y = some c) :
    0 ≤ y ∧ y < env.headerHeight := by
  unfold getHeaderColumnFromPoint at h
  by_cases hg : 0 ≤ y ∧ y < env.headerHeight
  · exact hg
  · rw [if_pos hg] at h
    exact Option.noConfusion h

theorem col_lt_of_header {env : ControllerEnv} {cw : ColumnWidths}
    {sl x y : ℚ} {c : ℕ}
    (h : getHeaderColumnFromPoint env cw sl x y = some c) :
    c < cw.columns.length := by
  unfold getHeaderColumnFromPoint at h
  split at h
  · exact Option.noConfusion h
  · split at h
    · exact Option.noConfusion h
    · exact colAtX_lt_length h


theorem dropIndexAux_lt (x : ℚ) :
    ∀ (ws : List ℚ) (j : ℕ) (boundary : ℚ),
    (∀ w ∈ ws, 0 ≤ w) → x < boundary →
    dropIndexAux x j boundary ws = j := by
  intro ws
  induction ws with
  | nil => intro j boundary _ _; rfl
  | cons w t _ =>
    intro j boundary hws hx
    unfold dropIndexAux
    rw [if_pos]
    have hw0 : 0 ≤ w := hws w (List.mem_cons_self w t)
    linarith

theorem dropIndexAux_span (x : ℚ) :
    ∀ (ws : List ℚ) (c j : ℕ) (boundary : ℚ),
    (∀ w ∈ ws, 0 ≤ w) → c < ws.length →
    boundary + (ws.take c).sum ≤ x →
    x < boundary + (ws.take c).sum + ws.getD c 0 →
    dropIndexAux x j boundary ws = j + c ∨
      dropIndexAux x j boundary ws = j + c + 1 := by
  intro ws
  induction ws with
  | nil =>
    intro c j boundary _ hc
    exact absurd hc (by simp)
  | cons w t ih =>
    intro c j boundary hws hc h1 h2
    have hw0 : 0 ≤ w := hws w (List.mem_cons_self w t)
    have hwt : ∀ v ∈ t, 0 ≤ v := fun v hv => hws v (List.mem_cons_of_mem _ hv)
    cases c with
    | zero =>
      rw [List.take_zero, List.sum_nil, add_zero] at h1
      rw [List.take_zero, List.sum_nil, add_zero, List.getD_cons_zero] at h2
      unfold dropIndexAux
      by_cases hm : x < boundary + w / 2
      · rw [if_pos hm]
        left
        omega
      · rw [if_neg hm]
        right
        rw [dropIndexAux_lt x t (j + 1) (boundary + w) hwt h2]
    | succ c =>
      rw [List.take_succ_cons, List.sum_cons] at h1 h2
      rw [List.getD_cons_succ] at h2
      have hsum0 : 0 ≤ (t.take c).sum :=
        List.sum_nonneg (fun v hv => hwt v (List.mem_of_mem_take hv))
      unfold dropIndexAux
      rw [if_neg (by push_neg; linarith)]
      have := ih c (j + 1) (boundary + w) hwt (by simpa using hc)
        (by linarith) (by linarith)
      rcases this with h | h
      · left
        rw [h]
        omega
      · right
        rw [h]
        omega

theorem dropIndexAt_span (cw : ColumnWidths) (sl x : ℚ) (c : ℕ)
    (hw : ∀ w ∈ cw.columns, 0 ≤ w) (hc : c < cw.columns.length)
    (h1 : cw.gutter - sl + (cw.columns.take c).sum ≤ x)
    (h2 : x < cw.gutter - sl + (cw.columns.take c).sum + cw.columns.getD c 0) :
    dropIndexAt cw sl x = c ∨ dropIndexAt cw sl x = c + 1 := by
  unfold dropIndexAt
  have := dropIndexAux_span x cw.columns c 0 (cw.gutter - sl) hw hc h1 h2
  rcases this with h | h
  · left
    rw [h]
    omega
  · right
    rw [h]
    omega


theorem downScrollbar_miss (env : ControllerEnv) (st : CtrlState) (x y : ℚ)
    (hv : ¬ (env.vertical.visible = true ∧
      env.canvasWidth - SCROLLBAR_WIDTH ≤ x))
    (hh : ¬ (env.horizontal.visible = true ∧
      env.canvasHeight - SCROLLBAR_WIDTH ≤ y)) :
    downScrollbar env st x y = (st.scrollbarDrag, false) := by
  unfold downScrollbar
  rw [if_neg hv, if_neg hh]

theorem downResizeStep_miss (env : ControllerEnv) (st : CtrlState) (x : ℚ)
    (h : env.resizable = false ∨
      resizeDownHit env st.columnWidths st.scrollLeft x = none) :
    downResizeStep env st x = (st, false) := by
  unfold downResizeStep
  by_cases hr : env.resizable = true
  · rcases h with h | h
    · rw [hr] at h
      exact Bool.noConfusion h
    · rw [if_pos hr, h]
  · rw [if_neg hr]

theorem dispatchDown_header (env : ControllerEnv) (s0 : CtrlState)
    (x0 y0 : ℚ) (c : ℕ)
    (hv : ¬ (env.vertical.visible = true ∧
      env.canvasWidth - SCROLLBAR_WIDTH ≤ x0))
    (hhz : ¬ (env.horizontal.visible = true ∧
      env.canvasHeight - SCROLLBAR_WIDTH ≤ y0))
    (hrz : env.resizable = false ∨
      resizeDownHit env s0.columnWidths s0.scrollLeft x0 = none)
    (hdr : env.draggableColumns = true)
    (hcol : getHeaderColumnFromPoint env s0.columnWidths s0.scrollLeft x0 y0 =
      some c) :
    dispatchDown env s0 x0 y0 true = { s0 with
      selection := some (SelectionRange.column c c),
      columnDrag := some
        ⟨DragStatus.pending, x0, y0, c,
          (match headerCellRectX env s0.columnWidths s0.scrollLeft c with
            | some rx => x0 - rx
            | none => 0), x0, none, none, none, none⟩ } := by
  unfold dispatchDown
  rw [downScrollbar_miss env s0 x0 y0 hv hhz]
  dsimp only
  rw [downResizeStep_miss env _ x0 hrz]
  dsimp only
  rw [if_pos (Or.inr ⟨rfl, rfl⟩)]
  unfold downSelect
  rw [if_pos (headerGuard_of_col hcol)]
  rw [hcol]
  dsimp only
  rw [if_pos hdr]


theorem moveScrollbar_id_of_none (env : ControllerEnv) (st : CtrlState)
    (x y : ℚ) (h : st.scrollbarDrag = none) :
    moveScrollbar env st x y = st := by
  unfold moveScrollbar
  rw [h]

theorem moveResize_id_of_inactive (env : ControllerEnv) (st : CtrlState)
    (x : ℚ) (h : st.resizeActive = false) :
    moveResize env st x = st := by
  unfold moveResize
  rw [h]
  rfl

theorem moveDrag_promote (env : ControllerEnv) (w : ColumnWidths) (sl : ℚ)
    (st : CtrlState) (x y : ℚ) (d : DragSession)
    (hdr : env.draggableColumns = true) (hd : st.columnDrag = some d)
    (hpend : d.status = DragStatus.pending)
    (hth : 4 ≤ max |x - d.startX| |y - d.startY|) :
    ∃ d2, (moveDrag env w sl st x y).columnDrag = some d2 ∧
      d2.status = DragStatus.dragging ∧
      d2.previewOrder = some (previewOf
        (snapshotOrderOf w.columns.length st.currentOrder) w.columns.length
        d.startVisibleIndex (dropIndexAt w sl x)) := by
  unfold moveDrag
  rw [if_pos hdr, hd]
  dsimp only
  rw [if_pos (show d.status = DragStatus.pending ∧
    4 ≤ max |x - d.startX| |y - d.startY| from ⟨hpend, hth⟩)]
  dsimp only
  rw [if_pos rfl]
  rw [applyColumnRemap_columnDrag]
  refine ⟨_, rfl, rfl, ?_⟩
  dsimp only
  rw [initOrderOf_snapshot]

theorem moveDrag_currentOrder (env : ControllerEnv) (w : ColumnWidths)
    (sl : ℚ) (st : CtrlState) (x y : ℚ) :
    (moveDrag env w sl st x y).currentOrder = st.currentOrder := by
  unfold moveDrag
  split
  · rcases hd : st.columnDrag with _ | s
    · rfl
    · dsimp only
      split
      · rw [if_pos rfl, applyColumnRemap_currentOrder]
      · split
        · rw [applyColumnRemap_currentOrder]
        · rfl
  · rfl


/-- C7: reorder idempotence.  Pressing down on a header column (away from
the scrollbars and any resize handle), moving past the 4px promotion
threshold to a point over the column's own current span, and releasing,
emits exactly one order-change notification carrying the original column
order and leaves the current order unchanged. -/
theorem c7_reorder_idempotence (env : ControllerEnv) (s0 : CtrlState)
    (x0 y0 x1 y1 : ℚ) (c : ℕ)
    (hfree : SessionFree s0)
    (hdr : env.draggableColumns = true)
    (hcb : env.hasOrderCallback = true)
    (hlen : s0.currentOrder.length = s0.columnWidths.columns.length)
    (hv : ¬ (env.vertical.visible = true ∧
      env.canvasWidth - SCROLLBAR_WIDTH ≤ x0))
    (hhz : ¬ (env.horizontal.visible = true ∧
      env.canvasHeight - SCROLLBAR_WIDTH ≤ y0))
    (hrz : env.resizable = false ∨
      resizeDownHit env s0.columnWidths s0.scrollLeft x0 = none)
    (hcol : getHeaderColumnFromPoint env s0.columnWidths s0.scrollLeft x0 y0 =
      some c)
    (hth : 4 ≤ max |x1 - x0| |y1 - y0|)
    (hw : ∀ w ∈ s0.columnWidths.columns, 0 ≤ w)
    (hsp1 : s0.columnWidths.gutter - s0.scrollLeft +
      (s0.columnWidths.columns.take c).sum ≤ x1)
    (hsp2 : x1 < s0.columnWidths.gutter - s0.scrollLeft +
      (s0.columnWidths.columns.take c).sum + s0.columnWidths.columns.getD c 0) :
    (runCtrl env s0 [CtrlEvent.down x0 y0 true, CtrlEvent.move x1 y1,
      CtrlEvent.up]).2 = [s0.currentOrder] ∧
    (runCtrl env s0 [CtrlEvent.down x0 y0 true, CtrlEvent.move x1 y1,
      CtrlEvent.up]).1.currentOrder = s0.currentOrder := by
  have hc : c < s0.columnWidths.columns.length := col_lt_of_header hcol
  have hcount : 0 < s0.columnWidths.columns.length := by omega
  have hs1 := dispatchDown_header env s0 x0 y0 c hv hhz hrz hdr hcol
  have hf1 : (dispatchDown env s0 x0 y0 true).scrollbarDrag = none := by
    rw [hs1]
    exact hfree.1
  have hf2 : (dispatchDown env s0 x0 y0 true).resizeActive = false := by
    rw [hs1]
    exact hfree.2.1
  obtain ⟨dp, hdp, hdpst, hdpx, hdpy, hdpsvi⟩ :
      ∃ dp, (dispatchDown env s0 x0 y0 true).columnDrag = some dp ∧
        dp.status = DragStatus.pending ∧ dp.startX = x0 ∧ dp.startY = y0 ∧
        dp.startVisibleIndex = c :=
    ⟨_, by rw [hs1], rfl, rfl, rfl, rfl⟩
  have hf4 : (dispatchDown env s0 x0 y0 true).columnWidths =
      s0.columnWidths := by rw [hs1]
  have hf5 : (dispatchDown env s0 x0 y0 true).scrollLeft = s0.scrollLeft := by
    rw [hs1]
  have hf6 : (dispatchDown env s0 x0 y0 true).currentOrder =
      s0.currentOrder := by rw [hs1]
  obtain ⟨d2, hm1, hm2, hm3⟩ := moveDrag_promote env
    (dispatchDown env s0 x0 y0 true).columnWidths
    (dispatchDown env s0 x0 y0 true).scrollLeft
    (dispatchDown env s0 x0 y0 true) x1 y1 dp hdr hdp hdpst
    (by rw [hdpx, hdpy]; exact hth)
  have hmove : dispatchMove env (dispatchDown env s0 x0 y0 true) x1 y1 =
      moveDrag env (dispatchDown env s0 x0 y0 true).columnWidths
        (dispatchDown env s0 x0 y0 true).scrollLeft
        (dispatchDown env s0 x0 y0 true) x1 y1 := by
    unfold dispatchMove
    rw [moveScrollbar_id_of_none env _ x1 y1 hf1,
      moveResize_id_of_inactive env _ x1 hf2]
  have hdropd := dropIndexAt_span s0.columnWidths s0.scrollLeft x1 c hw hc
    hsp1 hsp2
  have hm3' : d2.previewOrder = some s0.currentOrder := by
    rw [hm3, hf4, hf5, hf6, hdpsvi,
      snapshotOrderOf_self _ _ hcount hlen,
      preview_self s0.currentOrder _ c _ hlen hc hdropd]
  have hs2cd : (dispatchMove env (dispatchDown env s0 x0 y0 true) x1 y1
      ).columnDrag = some d2 := by
    rw [hmove]
    exact hm1
  have hemit : (dispatchUp env
      (dispatchMove env (dispatchDown env s0 x0 y0 true) x1 y1)).2 =
      [s0.currentOrder] := by
    rw [dispatchUp_snd, hs2cd]
    dsimp only
    rw [if_pos ⟨hdr, hm2, hcb⟩, hm3']
  have hord := dispatchUp_currentOrder_of_emit env
    (dispatchMove env (dispatchDown env s0 x0 y0 true) x1 y1)
    s0.currentOrder hemit
  constructor
  · show [] ++ ([] ++ ((dispatchUp env
      (dispatchMove env (dispatchDown env s0 x0 y0 true) x1 y1)).2 ++ [])) =
      [s0.currentOrder]
    rw [hemit]
    rfl
  · show (dispatchUp env
      (dispatchMove env (dispatchDown env s0 x0 y0 true) x1 y1)
      ).1.currentOrder = s0.currentOrder
    exact hord






theorem c7_reorder_idempotence_witness :
    (runCtrl c7Env c7State [CtrlEvent.down 50 10 true, CtrlEvent.move 60 10,
      CtrlEvent.up]).2 = [[0, 1]] ∧
    (runCtrl c7Env c7State [CtrlEvent.down 50 10 true, CtrlEvent.move 60 10,
      CtrlEvent.up]).1.currentOrder = [0, 1] :=
  c7_reorder_idempotence c7Env c7State 50 10 60 10 0
    ⟨rfl, rfl, rfl⟩ rfl rfl rfl
    (fun h => Bool.noConfusion h.1)
    (fun h => Bool.noConfusion h.1)
    (Or.inl rfl)
    (by norm_num [getHeaderColumnFromPoint, colAtX, c7Env, c7State])
    (by norm_num)
    (by
      intro w hw
      simp only [c7State, List.mem_cons, List.not_mem_nil, or_false] at hw
      rcases hw with rfl | rfl <;> norm_num)
    (by norm_num [c7State])
    (by norm_num [c7State])

end DataGrid
